import Mathlib

/-!
A shallow embedding, in Lean 4, of parts of a Linux kernel source tree:

* the generic MMIO copy helpers (`__iowrite32_copy`, `__ioread32_copy`,
  `__iowrite32_fifo`, `__ioread32_fifo`);
* the DRM auxiliary HPD bridge helpers for USB Type-C DisplayPort lane
  remapping (`drivers/gpu/drm/bridge/aux-hpd-bridge.c`);
* the component aggregate-device framework (`drivers/base/component.c`).

Pure C loops become structurally/well-founded recursive Lean functions,
machine integers become `Nat`/`Int` with explicit truncation where the C
performs a narrowing conversion, MMIO accesses become explicit traces, and
code that can dereference a NULL pointer returns `Option` (with `none`
standing for the undefined behaviour).
-/

set_option maxHeartbeats 1000000

/-! ## Generic MMIO copy helpers

The C functions write to / read from memory-mapped IO.  We model the MMIO
bus by the trace of accesses a call performs: a write trace is a list of
(word address, value) pairs in issue order, a read trace is the list of word
addresses read in issue order.  Plain kernel memory is a function
`Nat → Nat` from word (resp. byte) addresses to contents. -/

/-- The loop of `__iowrite32_copy`:
`while (src < end) __raw_writel(*src++, dst++);`.
`mem` is the source memory, indexed by 32-bit words; the result is the MMIO
write trace. -/
def iowrite32_copy_go (mem : Nat → Nat) (dst src endp : Nat) : List (Nat × Nat) :=
  if src < endp then (dst, mem src) :: iowrite32_copy_go mem (dst + 1) (src + 1) endp
  else []
termination_by endp - src
decreasing_by omega

/-- `__iowrite32_copy(to, from, count)`: copy `count` 32-bit words from
kernel memory `mem` at word address `fr` to MMIO starting at word address
`to`.  `end = src + count`. -/
def iowrite32_copy (mem : Nat → Nat) (dstA fr count : Nat) : List (Nat × Nat) :=
  iowrite32_copy_go mem dstA fr (fr + count)

/-- The loop of `__ioread32_copy`:
`while (src < end) *dst++ = __raw_readl(src++);`.
`mmio` gives the value returned by the 32-bit MMIO read at each word
address; `buf` is the destination kernel memory.  Returns the updated
destination memory together with the MMIO read (address) trace. -/
def ioread32_copy_go (mmio : Nat → Nat) (dst src endp : Nat) (buf : Nat → Nat) :
    (Nat → Nat) × List Nat :=
  if src < endp then
    let p := ioread32_copy_go mmio (dst + 1) (src + 1) endp
      (fun a => if a = dst then mmio src else buf a)
    (p.1, src :: p.2)
  else (buf, [])
termination_by endp - src
decreasing_by omega

/-- `__ioread32_copy(to, from, count)`. -/
def ioread32_copy (mmio : Nat → Nat) (dstA fr count : Nat) (buf : Nat → Nat) :
    (Nat → Nat) × List Nat :=
  ioread32_copy_go mmio dstA fr (fr + count) buf

/-- The inner loop of `__iowrite32_fifo`:
`for (i = 0; i < left; i++) { u8 val = *src++; dst |= val << (i * 8); }`.
`mem` is byte-addressed kernel memory (`mem a % 256` is the `u8` load). -/
def iowrite32_fifo_word (mem : Nat → Nat) (src left i dst : Nat) : Nat :=
  if i < left then
    iowrite32_fifo_word mem src left (i + 1) (dst ||| ((mem (src + i) % 256) <<< (8 * i)))
  else dst
termination_by left - i
decreasing_by omega

/-- The outer loop of `__iowrite32_fifo(to, from, count)`: while bytes
remain, pack up to four source bytes into a 32-bit word and
`__raw_writel(dst, to)` it to the single MMIO address `to`.  The result is
the MMIO write trace as (address, value) pairs; every write goes to `to`. -/
def iowrite32_fifo (mem : Nat → Nat) (dstA src count : Nat) : List (Nat × Nat) :=
  if count = 0 then []
  else
    (dstA, iowrite32_fifo_word mem src (min 4 count) 0 0) ::
      iowrite32_fifo mem dstA (src + min 4 count) (count - min 4 count)
termination_by count
decreasing_by omega

/-- The inner loop of `__ioread32_fifo`:
`for (i = 0; i < left; i++) { *dst++ = src; src >>= 8; }`
(the `u32` to `u8` store truncates). Produces the stored bytes in order. -/
def ioread32_fifo_unpack (w : Nat) : Nat → List Nat
  | 0 => []
  | left + 1 => (w % 256) :: ioread32_fifo_unpack (w >>> 8) left

/-- The outer loop of `__ioread32_fifo(to, from, count)`: while bytes remain,
`src = __raw_readl(from)` (the k-th read of the fixed FIFO address returns
`reads k`, truncated to `u32`), then store up to 4 bytes of it.  Returns the
produced byte list together with the list of read indices performed. -/
def ioread32_fifo_go (reads : Nat → Nat) (k count : Nat) : List Nat × List Nat :=
  if count = 0 then ([], [])
  else
    (ioread32_fifo_unpack (reads k % 2 ^ 32) (min 4 count) ++
        (ioread32_fifo_go reads (k + 1) (count - min 4 count)).1,
      k :: (ioread32_fifo_go reads (k + 1) (count - min 4 count)).2)
termination_by count
decreasing_by omega

/-- `__ioread32_fifo` with the read sequence starting at index 0. -/
def ioread32_fifo (reads : Nat → Nat) (count : Nat) : List Nat × List Nat :=
  ioread32_fifo_go reads 0 count

/-- Specification-side little-endian packing: the word whose byte `i`
(least significant first) is `mem (p + i) % 256`, for `i < k`. -/
def packLE (mem : Nat → Nat) (p : Nat) : Nat → Nat
  | 0 => 0
  | k + 1 => (mem p % 256) + 256 * packLE mem (p + 1) k

theorem packLE_lt (mem : Nat → Nat) (p k : Nat) : packLE mem p k < 256 ^ k := by
  induction k generalizing p with
  | zero => simp [packLE]
  | succ k ih =>
    have h1 : mem p % 256 < 256 := Nat.mod_lt _ (by norm_num)
    have h2 := ih (p + 1)
    have hp : (256 : Nat) ^ (k + 1) = 256 ^ k * 256 := pow_succ 256 k
    simp only [packLE]
    omega

/-- Disjoint bit-or is addition: if `a < 2 ^ k` then `a ||| (b <<< k) = a + b * 2 ^ k`. -/
theorem lor_shiftLeft_eq_add (a b k : Nat) (h : a < 2 ^ k) :
    a ||| (b <<< k) = a + b * 2 ^ k := by
  have hadd : a + b * 2 ^ k = 2 ^ k * b + a := by ring
  rw [hadd]
  apply Nat.eq_of_testBit_eq
  intro j
  rw [Nat.testBit_lor, Nat.testBit_shiftLeft, Nat.testBit_mul_pow_two_add b h j]
  by_cases hj : j < k
  · simp [hj, Nat.not_le.mpr hj]
  · have hge : k ≤ j := Nat.le_of_not_lt hj
    have ha : a.testBit j = false := by
      apply Nat.testBit_lt_two_pow
      calc a < 2 ^ k := h
        _ ≤ 2 ^ j := Nat.pow_le_pow_right (by norm_num) hge
    simp [ha, hj, hge]

theorem iowrite32_fifo_word_eq_packLE (mem : Nat → Nat) (src left : Nat) :
    iowrite32_fifo_word mem src left 0 0 = packLE mem src left := by
  suffices h : ∀ fuel i dst, left - i = fuel → dst < 2 ^ (8 * i) →
      iowrite32_fifo_word mem src left i dst = dst + packLE mem (src + i) (left - i) * 2 ^ (8 * i) by
    have := h left 0 0 (by omega) (by simp)
    simpa using this
  intro fuel
  induction fuel with
  | zero =>
    intro i dst hfi _
    have : ¬ i < left := by omega
    rw [iowrite32_fifo_word, if_neg this]
    have : left - i = 0 := by omega
    simp [this, packLE]
  | succ fuel ih =>
    intro i dst hfi hdst
    have hi : i < left := by omega
    rw [iowrite32_fifo_word, if_pos hi]
    have h256 : (2 : Nat) ^ (8 * i) * 256 = 2 ^ (8 * (i + 1)) := by
      rw [show 8 * (i + 1) = 8 * i + 8 by ring, pow_add]
      norm_num
    have hlt : dst ||| ((mem (src + i) % 256) <<< (8 * i)) < 2 ^ (8 * (i + 1)) := by
      rw [lor_shiftLeft_eq_add _ _ _ hdst]
      have hv : mem (src + i) % 256 < 256 := Nat.mod_lt _ (by norm_num)
      have : dst + (mem (src + i) % 256) * 2 ^ (8 * i) < 2 ^ (8 * i) + 255 * 2 ^ (8 * i) := by
        have : (mem (src + i) % 256) * 2 ^ (8 * i) ≤ 255 * 2 ^ (8 * i) :=
          Nat.mul_le_mul_right _ (by omega)
        omega
      calc dst + (mem (src + i) % 256) * 2 ^ (8 * i)
          < 2 ^ (8 * i) + 255 * 2 ^ (8 * i) := this
        _ = 2 ^ (8 * i) * 256 := by ring
        _ = 2 ^ (8 * (i + 1)) := h256
    have hih := ih (i + 1) (dst ||| ((mem (src + i) % 256) <<< (8 * i))) (by omega) hlt
    rw [hih, lor_shiftLeft_eq_add _ _ _ hdst]
    have hrest : left - i = (left - (i + 1)) + 1 := by omega
    rw [hrest]
    simp only [packLE]
    rw [show src + i + 1 = src + (i + 1) from by ring,
        show (8 : Nat) * (i + 1) = 8 * i + 8 from by ring, pow_add,
        show (2 : Nat) ^ 8 = 256 from by norm_num]
    ring

theorem ioread32_fifo_unpack_eq (w left : Nat) :
    ioread32_fifo_unpack w left =
      (List.range left).map (fun i => (w >>> (8 * i)) % 256) := by
  induction left generalizing w with
  | zero => simp [ioread32_fifo_unpack]
  | succ left ih =>
    rw [ioread32_fifo_unpack, List.range_succ_eq_map, List.map_cons, ih (w >>> 8)]
    simp only [List.map_map]
    refine congrArg₂ _ (by simp) ?_
    refine congrArg (fun f => List.map f (List.range left)) ?_
    funext i
    simp only [Function.comp_apply, Nat.succ_eq_add_one]
    rw [show 8 * (i + 1) = 8 + 8 * i by ring, Nat.shiftRight_add]

theorem iowrite32_copy_go_spec (mem : Nat → Nat) (n : Nat) :
    ∀ dst src, iowrite32_copy_go mem dst src (src + n) =
      (List.range n).map (fun j => (dst + j, mem (src + j))) := by
  induction n with
  | zero => intro dst src; rw [iowrite32_copy_go]; simp
  | succ n ih =>
    intro dst src
    rw [iowrite32_copy_go, if_pos (by omega), List.range_succ_eq_map, List.map_cons,
        List.map_map, show src + (n + 1) = (src + 1) + n from by ring, ih (dst + 1) (src + 1)]
    refine congrArg₂ _ (by simp) ?_
    refine congrArg (fun f => List.map f (List.range n)) ?_
    funext j
    have h1 : dst + 1 + j = dst + (j + 1) := by omega
    have h2 : src + 1 + j = src + (j + 1) := by omega
    simp [Function.comp, h1, h2]

theorem ioread32_copy_go_spec (mmio : Nat → Nat) (n : Nat) :
    ∀ dst src buf, (ioread32_copy_go mmio dst src (src + n) buf).2 =
        (List.range n).map (fun j => src + j) ∧
      ∀ a, (ioread32_copy_go mmio dst src (src + n) buf).1 a =
        if dst ≤ a ∧ a < dst + n then mmio (src + (a - dst)) else buf a := by
  induction n with
  | zero =>
    intro dst src buf
    rw [ioread32_copy_go, if_neg (by omega)]
    refine ⟨by simp, fun a => ?_⟩
    rw [if_neg (by omega)]
  | succ n ih =>
    intro dst src buf
    rw [ioread32_copy_go, if_pos (by omega)]
    have hend : src + (n + 1) = (src + 1) + n := by ring
    rw [hend]
    obtain ⟨iht, ihb⟩ := ih (dst + 1) (src + 1) (fun a => if a = dst then mmio src else buf a)
    constructor
    · rw [List.range_succ_eq_map, List.map_cons, List.map_map]
      refine congrArg₂ _ (by simp) ?_
      rw [iht]
      refine congrArg (fun f => List.map f (List.range n)) ?_
      funext j
      simp only [Function.comp_apply, Nat.succ_eq_add_one]
      omega
    · intro a
      simp only
      rw [ihb a]
      by_cases h1 : a = dst
      · subst h1
        rw [if_neg (by omega), if_pos (by omega)]
        simp
      · by_cases h2 : dst + 1 ≤ a ∧ a < dst + 1 + n
        · rw [if_pos h2, if_pos (by omega)]
          exact congrArg mmio (by omega)
        · rw [if_neg h2, if_neg (show ¬(dst ≤ a ∧ a < dst + (n + 1)) from by omega)]
          exact if_neg h1

/-- **C6.** `__iowrite32_copy(to, from, count)` writes exactly the first
`count` 32-bit words of the source, in order, to `count` consecutive 32-bit
MMIO destinations starting at `to`; `__ioread32_copy(to, from, count)` reads
`count` consecutive 32-bit MMIO words, in order, into the destination
buffer (leaving the rest of the buffer unchanged); for `count = 0` neither
performs any access. -/
theorem C6_iowrite32_copy_ioread32_copy (mem mmio buf : Nat → Nat) (dstA fr n : Nat) :
    iowrite32_copy mem dstA fr n = (List.range n).map (fun j => (dstA + j, mem (fr + j))) ∧
    iowrite32_copy mem dstA fr 0 = [] ∧
    (ioread32_copy mmio dstA fr n buf).2 = (List.range n).map (fun j => fr + j) ∧
    (∀ a, (ioread32_copy mmio dstA fr n buf).1 a =
      if dstA ≤ a ∧ a < dstA + n then mmio (fr + (a - dstA)) else buf a) ∧
    (ioread32_copy mmio dstA fr 0 buf).2 = [] ∧
    (∀ a, (ioread32_copy mmio dstA fr 0 buf).1 a = buf a) := by
  obtain ⟨ht, hb⟩ := ioread32_copy_go_spec mmio n dstA fr buf
  obtain ⟨ht0, hb0⟩ := ioread32_copy_go_spec mmio 0 dstA fr buf
  refine ⟨iowrite32_copy_go_spec mem n dstA fr, ?_, ht, hb, ?_, ?_⟩
  · have := iowrite32_copy_go_spec mem 0 dstA fr
    simpa using this
  · simpa using ht0
  · intro a
    rw [ioread32_copy, hb0 a, if_neg (by omega)]

theorem iowrite32_fifo_spec (mem : Nat → Nat) (dstA : Nat) (n : Nat) :
    ∀ src, iowrite32_fifo mem dstA src n =
      (List.range ((n + 3) / 4)).map
        (fun j => (dstA, packLE mem (src + 4 * j) (min 4 (n - 4 * j)))) := by
  induction n using Nat.strong_induction_on with
  | _ n ih =>
    intro src
    by_cases h0 : n = 0
    · subst h0; rw [iowrite32_fifo]; simp
    · rw [iowrite32_fifo, if_neg h0, iowrite32_fifo_word_eq_packLE]
      by_cases hn4 : n < 4
      · have hmin : min 4 n = n := by omega
        have hz : n - n = 0 := by omega
        rw [hmin, hz, show iowrite32_fifo mem dstA (src + n) 0 = [] from by
          rw [iowrite32_fifo]; simp]
        rw [show (n + 3) / 4 = 1 from by omega]
        simp [List.range_succ, hmin]
      · have hmin : min 4 n = 4 := by omega
        rw [hmin, ih (n - 4) (by omega) (src + 4),
            show (n + 3) / 4 = ((n - 4) + 3) / 4 + 1 from by omega,
            List.range_succ_eq_map, List.map_cons, List.map_map]
        refine congrArg₂ _ (by simp [hmin]) ?_
        refine congrArg (fun f => List.map f (List.range ((n - 4 + 3) / 4))) ?_
        funext j
        simp only [Function.comp_apply, Nat.succ_eq_add_one]
        refine congrArg₂ _ rfl ?_
        have h1 : src + 4 + 4 * j = src + 4 * (j + 1) := by ring
        have h2 : n - 4 - 4 * j = n - 4 * (j + 1) := by omega
        rw [h1, h2]

theorem ioread32_fifo_go_spec (reads : Nat → Nat) (n : Nat) :
    ∀ k, (ioread32_fifo_go reads k n).1 =
        (List.range n).map (fun j => ((reads (k + j / 4) % 2 ^ 32) >>> (8 * (j % 4))) % 256) ∧
      (ioread32_fifo_go reads k n).2 = (List.range ((n + 3) / 4)).map (fun j => k + j) := by
  induction n using Nat.strong_induction_on with
  | _ n ih =>
    intro k
    by_cases h0 : n = 0
    · subst h0; rw [ioread32_fifo_go]; simp
    · rw [ioread32_fifo_go, if_neg h0]
      by_cases hn4 : n < 4
      · have hmin : min 4 n = n := by omega
        have hz : n - n = 0 := by omega
        rw [hmin, hz]
        rw [show ioread32_fifo_go reads (k + 1) 0 = ([], []) from by rw [ioread32_fifo_go]; simp]
        constructor
        · rw [List.append_nil, ioread32_fifo_unpack_eq]
          refine List.map_congr_left ?_
          intro j hj
          have hjn : j < n := List.mem_range.mp hj
          have hd : j / 4 = 0 := by omega
          have hm : j % 4 = j := by omega
          rw [hd, hm, Nat.add_zero]
        · rw [show (n + 3) / 4 = 1 from by omega]
          simp [List.range_succ]
      · have hmin : min 4 n = 4 := by omega
        obtain ⟨ihb, iht⟩ := ih (n - 4) (by omega) (k + 1)
        rw [hmin, ihb, iht]
        constructor
        · have hhead : ioread32_fifo_unpack (reads k % 2 ^ 32) 4 =
              (List.range 4).map
                (fun j => ((reads (k + j / 4) % 2 ^ 32) >>> (8 * (j % 4))) % 256) := by
            rw [ioread32_fifo_unpack_eq]
            refine List.map_congr_left ?_
            intro j hj
            have hjn : j < 4 := List.mem_range.mp hj
            have hd : j / 4 = 0 := by omega
            have hm : j % 4 = j := by omega
            rw [hd, hm, Nat.add_zero]
          have htail : (List.range (n - 4)).map
                (fun j => ((reads (k + 1 + j / 4) % 2 ^ 32) >>> (8 * (j % 4))) % 256) =
              (List.range (n - 4)).map
                ((fun j => ((reads (k + j / 4) % 2 ^ 32) >>> (8 * (j % 4))) % 256) ∘
                  (fun x => 4 + x)) := by
            refine List.map_congr_left ?_
            intro j _
            simp only [Function.comp_apply]
            have e1 : k + (4 + j) / 4 = k + 1 + j / 4 := by omega
            have e2 : (4 + j) % 4 = j % 4 := by omega
            rw [e1, e2]
          rw [hhead, htail, ← List.map_map, ← List.map_append, ← List.range_add,
              show 4 + (n - 4) = n from by omega]
        · rw [show (n + 3) / 4 = ((n - 4) + 3) / 4 + 1 from by omega,
              List.range_succ_eq_map, List.map_cons, List.map_map]
          refine congrArg₂ _ (by simp) ?_
          refine congrArg (fun f => List.map f (List.range ((n - 4 + 3) / 4))) ?_
          funext j
          simp only [Function.comp_apply, Nat.succ_eq_add_one]
          omega

/-- **C10.** `__iowrite32_fifo(to, from, n)` issues exactly `⌈n/4⌉` 32-bit
writes, all to the single MMIO address `to`; the `j`-th written word packs
source bytes `4j .. min (4j+3) (n-1)` in little-endian byte order
(`packLE`), the remaining high bytes being zero (the word is below
`256 ^ left`).  `__ioread32_fifo` performs the symmetric unpacking: it reads
one 32-bit word per group of up to four output bytes (`⌈n/4⌉` reads in
total, in order), and output byte `j` is byte `j % 4` (least significant
first) of the `j / 4`-th word read. -/
theorem C10_iowrite32_fifo_ioread32_fifo (mem reads : Nat → Nat) (dstA src n : Nat) :
    iowrite32_fifo mem dstA src n =
      (List.range ((n + 3) / 4)).map
        (fun j => (dstA, packLE mem (src + 4 * j) (min 4 (n - 4 * j)))) ∧
    (iowrite32_fifo mem dstA src n).length = (n + 3) / 4 ∧
    (∀ j, packLE mem (src + 4 * j) (min 4 (n - 4 * j)) < 256 ^ (min 4 (n - 4 * j))) ∧
    (ioread32_fifo reads n).1 =
      (List.range n).map (fun j => ((reads (j / 4) % 2 ^ 32) >>> (8 * (j % 4))) % 256) ∧
    (ioread32_fifo reads n).2 = List.range ((n + 3) / 4) := by
  obtain ⟨hb, ht⟩ := ioread32_fifo_go_spec reads n 0
  refine ⟨iowrite32_fifo_spec mem dstA n src, ?_, ?_, ?_, ?_⟩
  · rw [iowrite32_fifo_spec mem dstA n src, List.length_map, List.length_range]
  · intro j
    exact packLE_lt mem (src + 4 * j) (min 4 (n - 4 * j))
  · rw [ioread32_fifo, hb]
    refine congrArg (fun f => List.map f (List.range n)) ?_
    funext j
    rw [Nat.zero_add]
  · rw [ioread32_fifo, ht]
    simp

/-! ## DRM auxiliary HPD bridge: USB Type-C DisplayPort lane remapping

From `drivers/gpu/drm/bridge/aux-hpd-bridge.c`.  Device identities are
`Nat`s; the `auxiliary_get_drvdata` result being non-NULL is the boolean
`hasDrvdata`; the USB type-c `lane_mapping` array is a function
`Nat → Nat` (only indices 0..3 are ever used). -/

/-- The kernel error number `EINVAL` (C functions return `-EINVAL`). -/
def EINVAL : Int := 22

/-- `dp_lane_to_typec_lane`: physical type-c lane for a DP lane.
`DP_ML0..DP_ML3 = 0..3`, `USB_SSRX1, USB_SSTX1, USB_SSTX2, USB_SSRX2 =
0, 1, 2, 3`; any other value falls out of the `switch` to `-EINVAL`. -/
def dp_lane_to_typec_lane (lane : Nat) : Int :=
  match lane with
  | 0 => 2
  | 1 => 3
  | 2 => 1
  | 3 => 0
  | _ => -EINVAL

/-- `typec_to_dp_lane`: logical DP lane for a type-c lane. -/
def typec_to_dp_lane (lane : Nat) : Int :=
  match lane with
  | 0 => 3
  | 1 => 2
  | 2 => 0
  | 3 => 1
  | _ => -EINVAL

/-- Modelled from the spec: `DP_CONF_GET_PIN_ASSIGN` comes from
`include/linux/usb/typec_dp.h`, which is not among the provided sources;
it extracts bits 15:8 of the DisplayPort altmode configure VDO. -/
def DP_CONF_GET_PIN_ASSIGN (conf : Nat) : Nat := (conf >>> 8) % 256

/-- Modelled from the spec: pin assignment D (`BIT(3)`), from
`include/linux/usb/typec_dp.h`. -/
def DP_PIN_ASSIGN_D : Nat := 8

/-- The `for (i = 0; i < num_lanes; i++)` loop of
`drm_dp_typec_bridge_assign_pins`: look up the physical type-c lane of DP
lane `i` (error out on a negative result), remap it through `lane_mapping`,
and record the logical DP lane (stored into a `u8`, hence the `% 256`). -/
def assign_pins_loop (lm : Nat → Nat) (i num : Nat) : Except Int (List Nat) :=
  if i < num then
    if dp_lane_to_typec_lane i < 0 then .error (dp_lane_to_typec_lane i)
    else
      match assign_pins_loop lm (i + 1) num with
      | .error e => .error e
      | .ok rest =>
          .ok ((((typec_to_dp_lane (lm (dp_lane_to_typec_lane i).toNat)) % 256).toNat) :: rest)
  else .ok []
termination_by num - i
decreasing_by omega

/-- `drm_dp_typec_bridge_assign_pins(typec_bridge_dev, conf, port)`.
`hasDrvdata` models `auxiliary_get_drvdata(adev) != NULL` (otherwise
`-EINVAL`); `num_lanes` is 2 for pin assignment D, else 4, capped at
`max_lanes`; the result is `(num_lanes, dp_lanes[0..num_lanes))`. -/
def drm_dp_typec_bridge_assign_pins (hasDrvdata : Bool) (maxLanes conf : Nat)
    (lm : Nat → Nat) : Except Int (Nat × List Nat) :=
  if !hasDrvdata then .error (-EINVAL)
  else
    match assign_pins_loop lm 0
        (min (if DP_CONF_GET_PIN_ASSIGN conf = DP_PIN_ASSIGN_D then 2 else 4) maxLanes) with
    | .error e => .error e
    | .ok l =>
        .ok (min (if DP_CONF_GET_PIN_ASSIGN conf = DP_PIN_ASSIGN_D then 2 else 4) maxLanes, l)

/-- Modelled from the spec: `TYPEC_STATE_SAFE` from
`include/linux/usb/typec_mux.h` / `typec.h` (not among the sources). -/
def TYPEC_STATE_SAFE : Nat := 0

/-- Modelled from the spec: `TYPEC_STATE_USB`. -/
def TYPEC_STATE_USB : Nat := 1

/-- Modelled from the spec: the DisplayPort altmode SVID
(`USB_TYPEC_DP_SID`), from `include/linux/usb/typec_dp.h`. -/
def USB_TYPEC_DP_SID : Nat := 0xff01

/-- Modelled from the spec: `DP_STATUS_HPD_STATE` (`BIT(7)`) of the
DisplayPort altmode status VDO, from `include/linux/usb/typec_dp.h`. -/
def DP_STATUS_HPD_STATE : Nat := 128

/-- Modelled from the spec: `enum drm_connector_status` values from
`include/drm/drm_connector.h` (not among the sources). -/
def connector_status_connected : Nat := 1

/-- Modelled from the spec: see `connector_status_connected`. -/
def connector_status_disconnected : Nat := 2

/-- The relevant fields of `struct typec_mux_state`: the mode, the altmode
SVID (`none` when `state->alt == NULL`), and the DisplayPort status VDO
(`state->data->status`, read only in the DP branch). -/
structure TypecMuxState where
  mode : Nat
  altSvid : Option Nat
  dpStatus : Nat

/-- `drm_aux_hpd_bridge_notify(dev, status)`: reports the hot plug event to
the bridge unless the auxiliary drvdata is NULL.  The result is the list of
statuses notified. -/
def drm_aux_hpd_bridge_notify (hasDrvdata : Bool) (status : Nat) : List Nat :=
  if hasDrvdata then [status] else []

/-- `drm_dp_typec_bridge_mode_switch_set(mode_switch, state)`: returns the
C return value together with the list of hot-plug notifications issued
(via `drm_aux_hpd_bridge_notify`).  The same drvdata pointer feeds both the
notification path and `drm_dp_typec_bridge_assign_pins`. -/
def drm_dp_typec_bridge_mode_switch_set (hasDrvdata : Bool) (maxLanes : Nat)
    (lm : Nat → Nat) (st : TypecMuxState) : Int × List Nat :=
  if st.mode = TYPEC_STATE_SAFE ∨ st.mode = TYPEC_STATE_USB then
    (0, drm_aux_hpd_bridge_notify hasDrvdata connector_status_disconnected)
  else if st.altSvid = some USB_TYPEC_DP_SID then
    match drm_dp_typec_bridge_assign_pins hasDrvdata maxLanes st.mode lm with
    | .error e => (e, [])
    | .ok _ =>
        (0, drm_aux_hpd_bridge_notify hasDrvdata
          (if st.dpStatus &&& DP_STATUS_HPD_STATE ≠ 0 then connector_status_connected
           else connector_status_disconnected))
  else (0, [])

theorem assign_pins_loop_id (n : Nat) (hn : n ≤ 4) :
    ∀ i, i ≤ n → assign_pins_loop (fun x => x) i n = .ok (List.range' i (n - i)) := by
  suffices h : ∀ fuel i, i ≤ n → n - i = fuel →
      assign_pins_loop (fun x => x) i n = .ok (List.range' i (n - i)) by
    intro i hi
    exact h (n - i) i hi rfl
  intro fuel
  induction fuel with
  | zero =>
    intro i _ hf
    rw [assign_pins_loop, if_neg (by omega), show n - i = 0 from by omega]
    rfl
  | succ fuel ih =>
    intro i hi hf
    have hlt : i < n := by omega
    have hi4 : i < 4 := by omega
    have hpos : ¬ dp_lane_to_typec_lane i < 0 := by
      interval_cases i <;> decide
    rw [assign_pins_loop, if_pos hlt, if_neg hpos, ih (i + 1) (by omega) (by omega)]
    have hval : ((typec_to_dp_lane ((dp_lane_to_typec_lane i).toNat)) % 256).toNat = i := by
      interval_cases i <;> decide
    rw [hval, show n - i = (n - (i + 1)) + 1 from by omega, List.range'_succ]

theorem assign_pins_loop_ok (lm : Nat → Nat) (n : Nat) (hn : n ≤ 4) :
    ∀ i, ∃ l, assign_pins_loop lm i n = .ok l := by
  suffices h : ∀ fuel i, n - i = fuel → ∃ l, assign_pins_loop lm i n = .ok l by
    intro i
    exact h (n - i) i rfl
  intro fuel
  induction fuel with
  | zero =>
    intro i hf
    refine ⟨[], ?_⟩
    rw [assign_pins_loop, if_neg (by omega)]
  | succ fuel ih =>
    intro i hf
    have hlt : i < n := by omega
    have hi4 : i < 4 := by omega
    have hpos : ¬ dp_lane_to_typec_lane i < 0 := by
      interval_cases i <;> decide
    obtain ⟨l, hl⟩ := ih (i + 1) (by omega)
    refine ⟨(((typec_to_dp_lane (lm (dp_lane_to_typec_lane i).toNat)) % 256).toNat) :: l, ?_⟩
    rw [assign_pins_loop, if_pos hlt, if_neg hpos, hl]

/-- **C5.** The DP-to-Type-C lane maps are mutually inverse bijections on
lanes 0..3, and `drm_dp_typec_bridge_assign_pins` with the identity
`lane_mapping` `[0,1,2,3]` assigns `dp_lanes[i] = i` for every
`i < num_lanes` (the resulting list is `List.range num_lanes`). -/
theorem C5_lane_maps_inverse_and_identity_assignment (l : Nat) (hl : l < 4)
    (maxLanes conf : Nat) :
    typec_to_dp_lane (dp_lane_to_typec_lane l).toNat = (l : Int) ∧
    dp_lane_to_typec_lane (typec_to_dp_lane l).toNat = (l : Int) ∧
    ∃ numLanes, numLanes ≤ 4 ∧
      drm_dp_typec_bridge_assign_pins true maxLanes conf (fun x => x) =
        .ok (numLanes, List.range numLanes) := by
  refine ⟨by interval_cases l <;> decide, by interval_cases l <;> decide, ?_⟩
  refine ⟨min (if DP_CONF_GET_PIN_ASSIGN conf = DP_PIN_ASSIGN_D then 2 else 4) maxLanes,
    by split <;> omega, ?_⟩
  rw [drm_dp_typec_bridge_assign_pins]
  have hn : min (if DP_CONF_GET_PIN_ASSIGN conf = DP_PIN_ASSIGN_D then 2 else 4) maxLanes ≤ 4 := by
    split <;> omega
  rw [assign_pins_loop_id _ hn 0 (by omega)]
  simp [List.range_eq_range']

/-- Witness for C5 at `l = 2`, `maxLanes = 4`, `conf = 0`. -/
theorem C5_lane_maps_inverse_and_identity_assignment_witness :
    (2 : Nat) < 4 ∧
    (typec_to_dp_lane (dp_lane_to_typec_lane 2).toNat = (2 : Int) ∧
     dp_lane_to_typec_lane (typec_to_dp_lane 2).toNat = (2 : Int) ∧
     ∃ numLanes, numLanes ≤ 4 ∧
       drm_dp_typec_bridge_assign_pins true 4 0 (fun x => x) =
         .ok (numLanes, List.range numLanes)) :=
  ⟨by decide, C5_lane_maps_inverse_and_identity_assignment 2 (by decide) 4 0⟩

theorem drm_dp_typec_bridge_assign_pins_ok (maxLanes conf : Nat) (lm : Nat → Nat) :
    ∃ p, drm_dp_typec_bridge_assign_pins true maxLanes conf lm = .ok p := by
  have hn : min (if DP_CONF_GET_PIN_ASSIGN conf = DP_PIN_ASSIGN_D then 2 else 4) maxLanes ≤ 4 := by
    split <;> omega
  obtain ⟨l, hl⟩ := assign_pins_loop_ok lm _ hn 0
  exact ⟨(min (if DP_CONF_GET_PIN_ASSIGN conf = DP_PIN_ASSIGN_D then 2 else 4) maxLanes, l),
    by simp [drm_dp_typec_bridge_assign_pins, hl]⟩

/-- **C7.** `drm_dp_typec_bridge_mode_switch_set` notifies
`connector_status_disconnected` when the mux state mode is
`TYPEC_STATE_SAFE` or `TYPEC_STATE_USB`; when the state carries the
DisplayPort altmode (`state->alt` with svid `USB_TYPEC_DP_SID`) it assigns
pins and then notifies `connector_status_connected` exactly when
`DP_STATUS_HPD_STATE` is set in the altmode status, and
`connector_status_disconnected` otherwise; it returns a nonzero error only
when pin assignment fails (in which case that error is returned and nothing
is notified); for any other state it performs no notification and
returns 0.  (Notification requires a non-NULL drvdata, which also makes
pin assignment succeed.) -/
theorem C7_drm_dp_typec_bridge_mode_switch_set (hasD : Bool) (maxL : Nat) (lm : Nat → Nat)
    (s1 s2 s3 : TypecMuxState)
    (h1 : s1.mode = TYPEC_STATE_SAFE ∨ s1.mode = TYPEC_STATE_USB)
    (h2m : ¬(s2.mode = TYPEC_STATE_SAFE ∨ s2.mode = TYPEC_STATE_USB))
    (h2a : s2.altSvid = some USB_TYPEC_DP_SID)
    (h3m : ¬(s3.mode = TYPEC_STATE_SAFE ∨ s3.mode = TYPEC_STATE_USB))
    (h3a : ¬(s3.altSvid = some USB_TYPEC_DP_SID)) :
    drm_dp_typec_bridge_mode_switch_set true maxL lm s1 =
      (0, [connector_status_disconnected]) ∧
    drm_dp_typec_bridge_mode_switch_set true maxL lm s2 =
      (0, [if s2.dpStatus &&& DP_STATUS_HPD_STATE ≠ 0 then connector_status_connected
           else connector_status_disconnected]) ∧
    drm_dp_typec_bridge_mode_switch_set true maxL lm s3 = (0, []) ∧
    ((drm_dp_typec_bridge_mode_switch_set hasD maxL lm s2).1 ≠ 0 →
      ∃ e, drm_dp_typec_bridge_assign_pins hasD maxL s2.mode lm = .error e ∧
        (drm_dp_typec_bridge_mode_switch_set hasD maxL lm s2).1 = e ∧
        (drm_dp_typec_bridge_mode_switch_set hasD maxL lm s2).2 = []) := by
  refine ⟨?_, ?_, ?_, ?_⟩
  · rw [drm_dp_typec_bridge_mode_switch_set, if_pos h1]
    rfl
  · obtain ⟨p, hp⟩ := drm_dp_typec_bridge_assign_pins_ok maxL s2.mode lm
    rw [drm_dp_typec_bridge_mode_switch_set, if_neg h2m, if_pos h2a, hp]
    rfl
  · rw [drm_dp_typec_bridge_mode_switch_set, if_neg h3m, if_neg h3a]
  · rw [drm_dp_typec_bridge_mode_switch_set, if_neg h2m, if_pos h2a]
    cases hassign : drm_dp_typec_bridge_assign_pins hasD maxL s2.mode lm with
    | error e => exact fun _ => ⟨e, rfl, rfl, rfl⟩
    | ok p => exact fun hne => absurd rfl hne

/-- Witness for C7: concrete safe/USB, DP-altmode and unrelated mux
states. -/
theorem C7_drm_dp_typec_bridge_mode_switch_set_witness :
    ((0 : Nat) = TYPEC_STATE_SAFE ∨ (0 : Nat) = TYPEC_STATE_USB) ∧
    (¬((2 : Nat) = TYPEC_STATE_SAFE ∨ (2 : Nat) = TYPEC_STATE_USB)) ∧
    (some 0xff01 = some USB_TYPEC_DP_SID) ∧
    (¬((5 : Nat) = TYPEC_STATE_SAFE ∨ (5 : Nat) = TYPEC_STATE_USB)) ∧
    (¬((none : Option Nat) = some USB_TYPEC_DP_SID)) ∧
    (drm_dp_typec_bridge_mode_switch_set true 4 (fun x => x) ⟨0, none, 0⟩ =
       (0, [connector_status_disconnected]) ∧
     drm_dp_typec_bridge_mode_switch_set true 4 (fun x => x) ⟨2, some 0xff01, 128⟩ =
       (0, [if (128 : Nat) &&& DP_STATUS_HPD_STATE ≠ 0 then connector_status_connected
            else connector_status_disconnected]) ∧
     drm_dp_typec_bridge_mode_switch_set true 4 (fun x => x) ⟨5, none, 0⟩ = (0, []) ∧
     ((drm_dp_typec_bridge_mode_switch_set true 4 (fun x => x) ⟨2, some 0xff01, 128⟩).1 ≠ 0 →
       ∃ e, drm_dp_typec_bridge_assign_pins true 4 2 (fun x => x) = .error e ∧
         (drm_dp_typec_bridge_mode_switch_set true 4 (fun x => x) ⟨2, some 0xff01, 128⟩).1 = e ∧
         (drm_dp_typec_bridge_mode_switch_set true 4 (fun x => x) ⟨2, some 0xff01, 128⟩).2 = [])) :=
  ⟨Or.inl rfl, by decide, rfl, by decide, by decide,
    C7_drm_dp_typec_bridge_mode_switch_set true 4 (fun x => x)
      ⟨0, none, 0⟩ ⟨2, some 0xff01, 128⟩ ⟨5, none, 0⟩
      (Or.inl rfl) (by decide) rfl (by decide) (by decide)⟩

/-! ## The component aggregate-device framework

From `drivers/base/component.c`.  Pointer identities become `Nat` ids:
`cid` for `struct component` allocations, `aid` for aggregate devices,
`opsId` for `component_ops` tables; `struct device *` values are `Nat`s.
The two mutable global structures are the component list and the aggregate
bus's device list.  `devres` group bookkeeping carries no component state
and is not modelled; `devres_open_group` allocations are assumed to
succeed, so `component_bind` fails exactly when the component's
`ops->bind` callback fails.  A code path that dereferences a NULL
`struct component *` is modelled by an `Option`-valued function returning
`none`. -/

/-- `struct component_ops`, by pointer identity plus the behaviour of its
callbacks as the framework observes it: `opsId` is the pointer value that
`component_del` matches on, `bindResult` is the value `ops->bind` returns,
and `hasUnbind` says whether `ops->unbind` is non-NULL. -/
structure ComponentOps where
  opsId : Nat
  bindResult : Int
  hasUnbind : Bool
deriving DecidableEq

/-- `struct component`.  `cid` models the pointer identity of the
allocation; `adev` is the id of the aggregate device this component is
attached to (`NULL` = `none`). -/
structure Component where
  cid : Nat
  dev : Nat
  ops : ComponentOps
  subcomponent : Int
  bound : Bool
  adev : Option Nat
deriving DecidableEq

/-- One entry of `struct component_match_array`.  The compare callbacks
receive the candidate component's `dev` (and `subcomponent`); `none` models
a NULL callback pointer.  `component` holds the `cid` of the associated
component, `none` for NULL. -/
structure ComponentMatchArray where
  compare : Option (Nat → Bool)
  compare_typed : Option (Nat → Int → Bool)
  component : Option Nat
  duplicate : Bool

/-- `struct aggregate_device`: id, parent device, the (deprecated)
`component_master_ops` pointer (`none` on the
`component_aggregate_register` path), the aggregate driver it belongs to,
its match array, and whether a driver is currently bound
(`adev->dev.driver != NULL`). -/
structure AggregateDevice where
  aid : Nat
  parent : Nat
  ops : Option Nat
  adrv : Nat
  entries : List ComponentMatchArray
  driverBound : Bool

/-- The global state: `component_list` (in `list_add_tail` registration
order) and the aggregate bus's device list (in registration order). -/
structure KState where
  components : List Component
  aggregates : List AggregateDevice

/-- Observable callback events: `ops->bind` invocations (from
`component_bind`) and `component_unbind` calls (each of which invokes
`ops->unbind` when it is non-NULL and clears `bound`). -/
inductive CompEv
  | bindCb (cid : Nat)
  | unbindComp (cid : Nat)
deriving DecidableEq

/-- Look a component up by pointer identity. -/
def findC (cs : List Component) (cid : Nat) : Option Component :=
  cs.find? (fun c => c.cid == cid)

/-- Mutate the component with identity `cid` in place. -/
def updateC (cs : List Component) (cid : Nat) (f : Component → Component) : List Component :=
  cs.map (fun c => if c.cid == cid then f c else c)

/-- The body of the `list_for_each_entry` loop in `find_component`: skip
components attached to a *different* aggregate, then try `mc->compare` and
`mc->compare_typed`. -/
def fc_matches (aid : Nat) (mc : ComponentMatchArray) (c : Component) : Bool :=
  (c.adev == none || c.adev == some aid) &&
    ((match mc.compare with
      | some f => f c.dev
      | none => false) ||
     (match mc.compare_typed with
      | some f => f c.dev c.subcomponent
      | none => false))

/-- `find_component(adev, mc)`: first component in the global list that the
match entry accepts. -/
def find_component (aid : Nat) (mc : ComponentMatchArray) (cs : List Component) :
    Option Component :=
  cs.find? (fc_matches aid mc)

/-- The `for (i = 0; i < match->num; i++)` loop of `find_components`:
entries with a component already associated are skipped; otherwise the
first acceptable component is recorded in the entry (with `duplicate` set
when the component is already attached to this aggregate); non-duplicates
are attached by setting `c->adev`.  On the first entry with no acceptable
component the loop returns 0, keeping all earlier associations. -/
def find_components_go (aid : Nat) (cs : List Component) :
    List ComponentMatchArray → Bool × List Component × List ComponentMatchArray
  | [] => (true, cs, [])
  | e :: rest =>
    if e.component.isSome then
      match find_components_go aid cs rest with
      | (ok, cs2, es2) => (ok, cs2, e :: es2)
    else
      match find_component aid e cs with
      | none => (false, cs, e :: rest)
      | some c =>
        if c.adev.isSome then
          match find_components_go aid cs rest with
          | (ok, cs2, es2) =>
            (ok, cs2, { e with duplicate := true, component := some c.cid } :: es2)
        else
          match find_components_go aid
              (updateC cs c.cid (fun x => { x with adev := some aid })) rest with
          | (ok, cs2, es2) =>
            (ok, cs2, { e with duplicate := false, component := some c.cid } :: es2)

/-- `find_components(adev)` (returns 1 on success, 0 on failure, as a
`Bool`), together with the updated component list and aggregate device. -/
def find_components (cs : List Component) (adev : AggregateDevice) :
    Bool × List Component × AggregateDevice :=
  match find_components_go adev.aid cs adev.entries with
  | (ok, cs2, es2) => (ok, cs2, { adev with entries := es2 })

/-- `aggregate_device_match(dev, drv)`: 0 unless `drv` is the aggregate's
own driver, otherwise the result of `find_components`. -/
def aggregate_device_match (cs : List Component) (adev : AggregateDevice) (drv : Nat) :
    Int × List Component × AggregateDevice :=
  if drv ≠ adev.adrv then (0, cs, adev)
  else
    match find_components cs adev with
    | (ok, cs2, adev2) => (if ok then 1 else 0, cs2, adev2)

/-- `__aggregate_find(parent, ops)`: the first aggregate device on the bus
whose parent matches and, when `ops` is non-NULL, whose `ops` matches. -/
def aggregate_find (aggs : List AggregateDevice) (parent : Nat) (ops : Option Nat) :
    Option AggregateDevice :=
  aggs.find? (fun a =>
    a.parent == parent &&
      (match ops with
       | none => true
       | some o => a.ops == some o))

/-- `component_bind(component, adev, data)` on the component itself:
devres groups are assumed to allocate, `ops->bind` returns
`c.ops.bindResult`, and on success `bound` is set. -/
def component_bind (c : Component) : Int × Component :=
  (c.ops.bindResult, if c.ops.bindResult == 0 then { c with bound := true } else c)

/-- `component_unbind(component, adev, data)`: calls `ops->unbind` if
non-NULL and clears `bound`. -/
def component_unbind (c : Component) : Component :=
  { c with bound := false }

/-- The reverse-order unbind loop shared by `component_unbind_all`
(`for (i = adev->match->num; i--;)`) and the failure path of
`component_bind_all` (`for (; i > 0; i--)`): entries are visited from the
last to the first, skipping duplicates; `component_unbind` is invoked on
each remaining entry's component (a NULL component or a dangling `cid` is
undefined behaviour: `none`). -/
def component_unbind_loop (cs : List Component) :
    List ComponentMatchArray → Option (List Component × List CompEv)
  | [] => some (cs, [])
  | e :: rest => do
    let (cs1, tr1) ← component_unbind_loop cs rest
    if e.duplicate then
      pure (cs1, tr1)
    else
      match e.component with
      | none => none
      | some cid =>
        match findC cs1 cid with
        | none => none
        | some _ => pure (updateC cs1 cid component_unbind, tr1 ++ [CompEv.unbindComp cid])

/-- The forward bind loop of `component_bind_all`
(`for (i = 0; i < adev->match->num; i++)`): bind each non-duplicate entry's
component in match order, stopping at the first failure.  Returns the C
`ret`, the loop counter `i` at exit, the updated components and the trace
of `ops->bind` invocations. -/
def component_bind_forward (cs : List Component) :
    List ComponentMatchArray → Option (Int × Nat × List Component × List CompEv)
  | [] => some (0, 0, cs, [])
  | e :: rest =>
    if e.duplicate then
      (component_bind_forward cs rest).map (fun r => (r.1, r.2.1 + 1, r.2.2))
    else
      match e.component with
      | none => none
      | some cid =>
        match findC cs cid with
        | none => none
        | some c =>
          if (component_bind c).1 == 0 then
            (component_bind_forward (updateC cs cid (fun x => (component_bind x).2)) rest).map
              (fun r => (r.1, r.2.1 + 1, r.2.2.1, CompEv.bindCb cid :: r.2.2.2))
          else
            some ((component_bind c).1, 0,
              updateC cs cid (fun x => (component_bind x).2), [CompEv.bindCb cid])

/-- `component_bind_all(parent, data)`: `-EINVAL` when no aggregate device
exists for `parent`; otherwise bind components in match order and, if one
fails, unbind the already-bound ones in reverse order and return the
error. -/
def component_bind_all (st : KState) (parent : Nat) :
    Option (Int × KState × List CompEv) :=
  match aggregate_find st.aggregates parent none with
  | none => some (-EINVAL, st, [])
  | some adev => do
    let (ret, i, cs1, tr1) ← component_bind_forward st.components adev.entries
    if ret == 0 then
      pure ((0 : Int), { st with components := cs1 }, tr1)
    else do
      let (cs2, tr2) ← component_unbind_loop cs1 (adev.entries.take i)
      pure (ret, { st with components := cs2 }, tr1 ++ tr2)

/-- `component_unbind_all(parent, data)`: a no-op when no aggregate device
exists for `parent`; otherwise unbind all non-duplicate components in
reverse match order. -/
def component_unbind_all (st : KState) (parent : Nat) :
    Option (KState × List CompEv) :=
  match aggregate_find st.aggregates parent none with
  | none => some (st, [])
  | some adev => do
    let (cs2, tr) ← component_unbind_loop st.components adev.entries
    pure ({ st with components := cs2 }, tr)

/-- `remove_component(adev, c)`: NULL out every match entry of the
aggregate that references the component. -/
def remove_component (entries : List ComponentMatchArray) (cid : Nat) :
    List ComponentMatchArray :=
  entries.map (fun e => if e.component == some cid then { e with component := none } else e)

/-- Modelled from the spec: `device_driver_detach` is driver-core code
(`drivers/base/dd.c`), not among this tree's sources.  Detaching the bound
driver of an aggregate device runs `aggregate_driver_remove`, whose
`adrv->remove` (the master's unbind on the deprecated path) calls
`component_unbind_all(adev->parent, ...)` per the framework contract
documented in `component.c` / `component.h`; afterwards the device has no
driver bound.  If no driver is bound, nothing happens. -/
def device_driver_detach (st : KState) (aid : Nat) : Option (KState × List CompEv) :=
  match st.aggregates.find? (fun a => a.aid == aid) with
  | none => some (st, [])
  | some a =>
    if a.driverBound then do
      let (st1, tr) ← component_unbind_all st a.parent
      pure ({ st1 with
        aggregates := st1.aggregates.map
          (fun x => if x.aid == aid then { x with driverBound := false } else x) }, tr)
    else some (st, [])

/-- `component_del(dev, ops)`: unlink the first matching component from the
global list; if it was attached to an aggregate, clear the aggregate's
match entries that reference it and then force the aggregate's driver to
detach (`device_driver_detach`). -/
def component_del (st : KState) (dev : Nat) (ops : ComponentOps) :
    Option (KState × List CompEv) :=
  match st.components.find? (fun c => c.dev == dev && decide (c.ops = ops)) with
  | none => some (st, [])
  | some comp =>
    match comp.adev with
    | none =>
      some ({ st with
        components := st.components.eraseP (fun c => c.dev == dev && decide (c.ops = ops)) }, [])
    | some aid =>
      device_driver_detach
        { components := st.components.eraseP (fun c => c.dev == dev && decide (c.ops = ops)),
          aggregates := st.aggregates.map
            (fun a => if a.aid == aid then
                { a with entries := remove_component a.entries comp.cid }
              else a) }
        aid

/-- The `struct component` that `__component_add` allocates with `kzalloc`
and initialises. -/
def mkComponent (cid dev : Nat) (ops : ComponentOps) (sub : Int) : Component :=
  { cid := cid, dev := dev, ops := ops, subcomponent := sub, bound := false, adev := none }

/-- `__component_add(dev, ops, subcomponent)` with the `kzalloc` assumed to
succeed (`cid` is the fresh allocation's identity): append the component to
the tail of the global list, then rescan the aggregate bus.
`bus_rescan_devices` is driver-core code outside this tree, here an
arbitrary state transformer `rescan`; its return value `ret` is discarded
and 0 is returned. -/
def __component_add (st : KState) (dev : Nat) (ops : ComponentOps) (sub : Int)
    (cid : Nat) (rescan : KState → Int × KState) : Int × KState :=
  (0, (rescan { st with components := st.components ++ [mkComponent cid dev ops sub] }).2)

/-- `component_add_typed(dev, ops, subcomponent)`: `WARN_ON` and `-EINVAL`
for `subcomponent == 0`. -/
def component_add_typed (st : KState) (dev : Nat) (ops : ComponentOps) (sub : Int)
    (cid : Nat) (rescan : KState → Int × KState) : Int × KState :=
  if sub == 0 then (-EINVAL, st) else __component_add st dev ops sub cid rescan

/-- `component_add(dev, ops)` = `__component_add(dev, ops, 0)`. -/
def component_add (st : KState) (dev : Nat) (ops : ComponentOps)
    (cid : Nat) (rescan : KState → Int × KState) : Int × KState :=
  __component_add st dev ops 0 cid rescan

/-- The cids of the non-duplicate entries' components, in match order. -/
def ndCids (entries : List ComponentMatchArray) : List Nat :=
  entries.filterMap (fun e => if e.duplicate then none else e.component)

/-- **C9.** `component_add_typed` returns `-EINVAL` and registers nothing
when `subcomponent` is 0; otherwise (and for `component_add`)
`__component_add` returns 0 whenever its allocation succeeds (allocation is
modelled as succeeding), the new component is appended to the tail of the
global component list (that is the state handed to the bus rescan), and the
result of the bus rescan is discarded: the return value is 0 for every
possible `rescan`. -/
theorem C9_component_add_typed_einval_and_add_tail (st : KState) (dev : Nat)
    (ops : ComponentOps) (sub : Int) (cid : Nat) (rescan : KState → Int × KState)
    (hsub : sub ≠ 0) :
    component_add_typed st dev ops 0 cid rescan = (-EINVAL, st) ∧
    component_add_typed st dev ops sub cid rescan = __component_add st dev ops sub cid rescan ∧
    (__component_add st dev ops sub cid rescan).1 = 0 ∧
    (component_add st dev ops cid rescan).1 = 0 ∧
    (__component_add st dev ops sub cid rescan).2 =
      (rescan { st with components := st.components ++ [mkComponent cid dev ops sub] }).2 := by
  refine ⟨rfl, ?_, rfl, rfl, rfl⟩
  rw [component_add_typed, if_neg (by simpa using hsub)]

/-- Witness for C9 on the empty state with `subcomponent = 1`. -/
theorem C9_component_add_typed_einval_and_add_tail_witness :
    (1 : Int) ≠ 0 ∧
    (component_add_typed ⟨[], []⟩ 0 ⟨0, 0, false⟩ 0 0 (fun s => (0, s)) = (-EINVAL, ⟨[], []⟩) ∧
     component_add_typed ⟨[], []⟩ 0 ⟨0, 0, false⟩ 1 0 (fun s => (0, s)) =
       __component_add ⟨[], []⟩ 0 ⟨0, 0, false⟩ 1 0 (fun s => (0, s)) ∧
     (__component_add ⟨[], []⟩ 0 ⟨0, 0, false⟩ 1 0 (fun s => (0, s))).1 = 0 ∧
     (component_add ⟨[], []⟩ 0 ⟨0, 0, false⟩ 0 (fun s => (0, s))).1 = 0 ∧
     (__component_add ⟨[], []⟩ 0 ⟨0, 0, false⟩ 1 0 (fun s => (0, s))).2 =
       ((fun (s : KState) => ((0 : Int), s))
           { components := ([] : List Component) ++ [mkComponent 0 0 ⟨0, 0, false⟩ 1],
             aggregates := ([] : List AggregateDevice) }).2) :=
  ⟨by decide,
    C9_component_add_typed_einval_and_add_tail ⟨[], []⟩ 0 ⟨0, 0, false⟩ 1 0
      (fun s => (0, s)) (by decide)⟩

/-- A component already attached to aggregate device 0. -/
def c3comp : Component :=
  { cid := 0, dev := 0, ops := ⟨0, 0, false⟩, subcomponent := 0, bound := false,
    adev := some 0 }

/-- A match entry (of a different aggregate, id 1) whose compare callback
accepts every device. -/
def c3entry : ComponentMatchArray :=
  { compare := some (fun _ => true), compare_typed := none, component := none,
    duplicate := false }

/-- **C3, counterexample.**  A component attached to one aggregate device
(id 0) does *not* satisfy a match entry of a different aggregate device
(id 1), even though the entry's compare accepts it: `find_component` skips
components with `c->adev && c->adev != adev`, so `find_components` fails
and the entry stays empty with its duplicate flag clear. -/
theorem C3_cross_aggregate_component_not_matched :
    find_component 1 c3entry [c3comp] = none ∧
    find_components_go 1 [c3comp] [c3entry] = (false, [c3comp], [c3entry]) :=
  ⟨rfl, rfl⟩

/-- **C3, amended.**  A component that is already attached to the *same*
aggregate device (it matched an earlier entry of that aggregate) can also
satisfy a further match entry of that aggregate; it is then recorded in the
entry with its duplicate flag set and the component list is left unchanged
(no re-attachment). -/
theorem C3_amended_duplicate_within_same_aggregate (cs : List Component)
    (aid : Nat) (e : ComponentMatchArray) (c : Component)
    (he : e.component = none) (hfind : find_component aid e cs = some c)
    (hatt : c.adev = some aid) :
    find_components_go aid cs [e] =
      (true, cs, [{ e with duplicate := true, component := some c.cid }]) := by
  rw [find_components_go, he]
  simp only [Option.isSome_none, Bool.false_eq_true, if_false, hfind, hatt,
    Option.isSome_some, if_true, find_components_go]

/-- Witness for the amended C3: a component attached to aggregate 7 matches
a second entry of aggregate 7 and is recorded as a duplicate. -/
theorem C3_amended_duplicate_within_same_aggregate_witness :
    (c3entry.component = none) ∧
    (find_component 7 c3entry
        [{ cid := 3, dev := 0, ops := ⟨0, 0, false⟩, subcomponent := 0, bound := false,
           adev := some 7 }] =
      some { cid := 3, dev := 0, ops := ⟨0, 0, false⟩, subcomponent := 0, bound := false,
             adev := some 7 }) ∧
    (find_components_go 7
        [{ cid := 3, dev := 0, ops := ⟨0, 0, false⟩, subcomponent := 0, bound := false,
           adev := some 7 }] [c3entry] =
      (true,
        [{ cid := 3, dev := 0, ops := ⟨0, 0, false⟩, subcomponent := 0, bound := false,
           adev := some 7 }],
        [{ c3entry with duplicate := true, component := some 3 }])) :=
  ⟨rfl, rfl,
    C3_amended_duplicate_within_same_aggregate
      [{ cid := 3, dev := 0, ops := ⟨0, 0, false⟩, subcomponent := 0, bound := false,
         adev := some 7 }] 7 c3entry
      { cid := 3, dev := 0, ops := ⟨0, 0, false⟩, subcomponent := 0, bound := false,
        adev := some 7 } rfl rfl rfl⟩

/-- The `component_ops` of the C4 failing input. -/
def c4ops : ComponentOps := ⟨0, 0, true⟩

/-- C4 failing input: a registered, bound component attached (non-duplicate)
to aggregate device 0, whose single match entry references it. -/
def c4comp : Component :=
  { cid := 0, dev := 0, ops := c4ops, subcomponent := 0, bound := true, adev := some 0 }

/-- The aggregate's match entry referencing `c4comp`. -/
def c4entry : ComponentMatchArray :=
  { compare := some (fun _ => true), compare_typed := none, component := some 0,
    duplicate := false }

/-- The bound aggregate device of the C4 failing input. -/
def c4adev : AggregateDevice :=
  { aid := 0, parent := 7, ops := some 0, adrv := 0, entries := [c4entry],
    driverBound := true }

/-- The C4 failing state. -/
def c4state : KState := { components := [c4comp], aggregates := [c4adev] }

/-- **C4, code evaluation at the failing input.**  `component_del` first
clears the aggregate's match entries referencing the component
(`remove_component`) and only then forces the driver to detach; the detach
runs `component_unbind_all`, whose non-duplicate loop reads the now-NULL
`compare[i].component` and passes it to `component_unbind`, which
dereferences it (`WARN_ON(!component->bound)`).  The model returns `none`
(undefined behaviour) instead of unbinding all components of the
aggregate.  (The mainline kernel takes the aggregate down *before*
`remove_component` for exactly this reason.) -/
theorem C4_component_del_detach_dereferences_cleared_entry :
    component_del c4state 0 c4ops = none := rfl

theorem findC_map (cs : List Component) (x : Nat) (g : Component → Component)
    (hg : ∀ c, (g c).cid = c.cid) :
    findC (cs.map g) x = (findC cs x).map g := by
  rw [findC, List.find?_map, findC]
  have hpred : ((fun c => c.cid == x) ∘ g) = (fun c => c.cid == x) := by
    funext c
    simp [Function.comp, hg c]
  rw [hpred]

theorem findC_updateC (cs : List Component) (cid x : Nat) (f : Component → Component)
    (hf : ∀ c, c.cid = cid → (f c).cid = c.cid) :
    findC (updateC cs cid f) x =
      (findC cs x).map (fun c => if c.cid == cid then f c else c) := by
  apply findC_map
  intro c
  by_cases h : c.cid = cid
  · simp [h, hf c h]
  · simp [h]

/-- The `ops` pointer visible through `findC`, for every identity. -/
def opsView (cs : List Component) (x : Nat) : Option ComponentOps :=
  (findC cs x).map (fun c => c.ops)

theorem opsView_updateC (cs : List Component) (cid x : Nat) (f : Component → Component)
    (hf : ∀ c, (f c).cid = c.cid ∧ (f c).ops = c.ops) :
    opsView (updateC cs cid f) x = opsView cs x := by
  rw [opsView, findC_updateC cs cid x f (fun c _ => (hf c).1), opsView, Option.map_map]
  congr 1
  funext c
  by_cases h : c.cid = cid <;> simp [Function.comp, h, (hf c).2]

theorem isSome_findC_updateC (cs : List Component) (cid x : Nat) (f : Component → Component)
    (hf : ∀ c, (f c).cid = c.cid ∧ (f c).ops = c.ops) :
    (findC (updateC cs cid f) x).isSome = (findC cs x).isSome := by
  have := opsView_updateC cs cid x f hf
  rw [opsView, opsView] at this
  cases hc : findC cs x <;> cases hc' : findC (updateC cs cid f) x <;>
    rw [hc, hc'] at this <;> simp_all

/-- Every non-duplicate entry references a component present in `cs`. -/
def EntriesResolvable (cs : List Component) (entries : List ComponentMatchArray) : Prop :=
  ∀ e ∈ entries, e.duplicate = false →
    ∃ cid, e.component = some cid ∧ (findC cs cid).isSome = true

theorem component_unbind_preserves (c : Component) :
    (component_unbind c).cid = c.cid ∧ (component_unbind c).ops = c.ops :=
  ⟨rfl, rfl⟩

/-- The reverse unbind loop: under resolvability it succeeds, its trace is
one `component_unbind` per non-duplicate entry in reverse match order, it
preserves which identities exist and their `ops`, and any component still
bound afterwards was bound before and is not referenced by any
non-duplicate entry. -/
theorem component_unbind_loop_spec (entries : List ComponentMatchArray) :
    ∀ cs, EntriesResolvable cs entries →
      ∃ cs2, component_unbind_loop cs entries =
          some (cs2, (ndCids entries).reverse.map CompEv.unbindComp) ∧
        (∀ x, (findC cs2 x).isSome = (findC cs x).isSome) ∧
        (∀ x, opsView cs2 x = opsView cs x) ∧
        (∀ c ∈ cs2, c.bound = true →
          c.cid ∉ ndCids entries ∧ ∃ c0 ∈ cs, c0.cid = c.cid ∧ c0.bound = true) := by
  induction entries with
  | nil =>
    intro cs _
    exact ⟨cs, rfl, fun _ => rfl, fun _ => rfl,
      fun c hc hb => ⟨by simp [ndCids], c, hc, rfl, hb⟩⟩
  | cons e rest ih =>
    intro cs hres
    have hres' : EntriesResolvable cs rest :=
      fun e' he' => hres e' (List.mem_cons_of_mem _ he')
    obtain ⟨cs1, hloop, hdom, hops, hbound⟩ := ih cs hres'
    by_cases hdup : e.duplicate
    · refine ⟨cs1, ?_, hdom, hops, ?_⟩
      · rw [component_unbind_loop, hloop]
        simp [Option.bind, hdup, ndCids]
      · intro c hc hb
        obtain ⟨hnot, hex⟩ := hbound c hc hb
        have htr : ndCids (e :: rest) = ndCids rest := by simp [ndCids, hdup]
        rw [htr]
        exact ⟨hnot, hex⟩
    · have hdupf : e.duplicate = false := by simp [hdup]
      obtain ⟨cid, hcomp, hsome⟩ := hres e (List.mem_cons_self e rest) hdupf
      have hsome1 : (findC cs1 cid).isSome = true := by rw [hdom]; exact hsome
      obtain ⟨c1, hc1⟩ := Option.isSome_iff_exists.mp hsome1
      refine ⟨updateC cs1 cid component_unbind, ?_, ?_, ?_, ?_⟩
      · rw [component_unbind_loop, hloop]
        have htr : ndCids (e :: rest) = cid :: ndCids rest := by
          simp [ndCids, hdupf, hcomp]
        rw [htr]
        simp only [bind, Option.bind, hdupf, Bool.false_eq_true, if_false, hcomp]
        rw [hc1]
        simp
      · intro x
        rw [isSome_findC_updateC _ _ _ _ component_unbind_preserves, hdom]
      · intro x
        rw [opsView_updateC _ _ _ _ component_unbind_preserves, hops]
      · intro c hc hb
        obtain ⟨c1', hc1', hceq⟩ := List.mem_map.mp hc
        by_cases hcid : c1'.cid = cid
        · rw [if_pos (by simpa using hcid)] at hceq
          rw [← hceq] at hb
          simp [component_unbind] at hb
        · rw [if_neg (by simpa using hcid)] at hceq
          subst hceq
          obtain ⟨hnot, hex⟩ := hbound c1' hc1' hb
          refine ⟨?_, hex⟩
          have htr : ndCids (e :: rest) = cid :: ndCids rest := by
            simp [ndCids, hdupf, hcomp]
          rw [htr]
          simp [hcid, hnot]

/-- **C8.** `component_unbind_all` visits the aggregate's match entries in
reverse match order, invoking `component_unbind` (and thereby the
component unbind callback) only for non-duplicate entries, as the event
trace records; afterwards every non-duplicate component of that aggregate
has `bound = false`; and the call is a no-op when no aggregate device
exists for the given parent. -/
theorem C8_component_unbind_all_reverse_and_noop (st stN : KState)
    (parent parentN : Nat) (adev : AggregateDevice)
    (hN : aggregate_find stN.aggregates parentN none = none)
    (hfind : aggregate_find st.aggregates parent none = some adev)
    (hres : EntriesResolvable st.components adev.entries) :
    component_unbind_all stN parentN = some (stN, []) ∧
    ∃ cs2, component_unbind_all st parent =
        some ({ st with components := cs2 },
          (ndCids adev.entries).reverse.map CompEv.unbindComp) ∧
      ∀ c ∈ cs2, c.cid ∈ ndCids adev.entries → c.bound = false := by
  constructor
  · rw [component_unbind_all, hN]
  · obtain ⟨cs2, hloop, _, _, hbound⟩ :=
      component_unbind_loop_spec adev.entries st.components hres
    refine ⟨cs2, ?_, ?_⟩
    · rw [component_unbind_all, hfind]
      simp only [hloop, bind, Option.bind]
      rfl
    · intro c hc hcid
      by_contra hb
      simp only [Bool.not_eq_false] at hb
      exact absurd hcid (hbound c hc hb).1

/-- C8 witness component: registered, bound, attached to aggregate 0. -/
def c8comp : Component :=
  { cid := 0, dev := 0, ops := ⟨0, 0, true⟩, subcomponent := 0, bound := true,
    adev := some 0 }

/-- C8 witness entry referencing `c8comp`. -/
def c8entry : ComponentMatchArray :=
  { compare := some (fun _ => true), compare_typed := none, component := some 0,
    duplicate := false }

/-- C8 witness aggregate device (parent 5). -/
def c8adev : AggregateDevice :=
  { aid := 0, parent := 5, ops := none, adrv := 0, entries := [c8entry],
    driverBound := true }

/-- C8 witness state. -/
def c8state : KState := { components := [c8comp], aggregates := [c8adev] }

/-- Witness for C8: the empty state has no aggregate for parent 0 (no-op
case); `c8state` has one for parent 5 (unbind case). -/
theorem C8_component_unbind_all_reverse_and_noop_witness :
    aggregate_find (⟨[], []⟩ : KState).aggregates 0 none = none ∧
    aggregate_find c8state.aggregates 5 none = some c8adev ∧
    EntriesResolvable c8state.components c8adev.entries ∧
    (component_unbind_all ⟨[], []⟩ 0 = some (⟨[], []⟩, []) ∧
     ∃ cs2, component_unbind_all c8state 5 =
         some ({ c8state with components := cs2 },
           (ndCids c8adev.entries).reverse.map CompEv.unbindComp) ∧
       ∀ c ∈ cs2, c.cid ∈ ndCids c8adev.entries → c.bound = false) :=
  ⟨rfl, rfl,
    fun e he _ => by
      have he' : e = c8entry := by simpa [c8adev] using he
      subst he'
      exact ⟨0, rfl, by decide⟩,
    C8_component_unbind_all_reverse_and_noop c8state ⟨[], []⟩ 5 0 c8adev rfl rfl
      (fun e he _ => by
        have he' : e = c8entry := by simpa [c8adev] using he
        subst he'
        exact ⟨0, rfl, by decide⟩)⟩

/-- How `find_components` may change a component: untouched, or newly
attached to aggregate `aid`. -/
def compUpd (aid : Nat) (c c' : Component) : Prop :=
  c' = c ∨ c' = { c with adev := some aid }

theorem compUpd_refl (aid : Nat) (c : Component) : compUpd aid c c := Or.inl rfl

theorem compUpd_trans {aid : Nat} {a b c : Component}
    (h1 : compUpd aid a b) (h2 : compUpd aid b c) : compUpd aid a c := by
  rcases h1 with h1 | h1 <;> rcases h2 with h2 | h2 <;> subst h1 <;> subst h2
  · exact Or.inl rfl
  · exact Or.inr rfl
  · exact Or.inr rfl
  · exact Or.inr rfl

theorem compUpd_cid {aid : Nat} {a b : Component} (h : compUpd aid a b) :
    b.cid = a.cid := by
  rcases h with h | h <;> subst h <;> rfl

theorem compUpd_attached {aid : Nat} {a b : Component} (h : compUpd aid a b)
    (ha : a.adev = some aid) : b.adev = some aid := by
  rcases h with h | h <;> subst h
  · exact ha
  · rfl

theorem forall₂_compUpd_refl (aid : Nat) (l : List Component) :
    List.Forall₂ (compUpd aid) l l :=
  List.forall₂_same.mpr (fun c _ => compUpd_refl aid c)

theorem forall₂_compUpd_trans {aid : Nat} :
    ∀ {l1 l2 l3 : List Component}, List.Forall₂ (compUpd aid) l1 l2 →
      List.Forall₂ (compUpd aid) l2 l3 → List.Forall₂ (compUpd aid) l1 l3 := by
  intro l1 l2 l3 h12
  induction h12 generalizing l3 with
  | nil => intro h23; cases h23; exact List.Forall₂.nil
  | cons hab h ih =>
    intro h23
    cases h23 with
    | cons hbc h' => exact List.Forall₂.cons (compUpd_trans hab hbc) (ih h')

theorem forall₂_compUpd_updateC (aid cid : Nat) (cs : List Component) :
    List.Forall₂ (compUpd aid) cs
      (updateC cs cid (fun x => { x with adev := some aid })) := by
  induction cs with
  | nil => exact List.Forall₂.nil
  | cons c cs ih =>
    rw [updateC, List.map_cons]
    refine List.Forall₂.cons ?_ ih
    by_cases h : c.cid = cid
    · rw [if_pos (by simpa using h)]
      exact Or.inr rfl
    · rw [if_neg (by simpa using h)]
      exact Or.inl rfl

theorem forall₂_exists_mem_left {α β : Type} {R : α → β → Prop} :
    ∀ {l : List α} {l' : List β}, List.Forall₂ R l l' → ∀ x ∈ l, ∃ y ∈ l', R x y := by
  intro l l' h
  induction h with
  | nil => intro x hx; cases hx
  | cons hab h ih =>
    intro x hx
    rcases List.mem_cons.mp hx with h1 | h2
    · subst h1; exact ⟨_, List.mem_cons_self _ _, hab⟩
    · obtain ⟨y, hy, hr⟩ := ih x h2
      exact ⟨y, List.mem_cons_of_mem _ hy, hr⟩

/-- How `find_components` may change a match entry, relative to the final
component list `csF`: an entry already holding a component is untouched; an
empty entry either stays empty (match failure at or after it) or records a
component which, unless flagged duplicate, is attached to this aggregate in
`csF`. -/
def entryUpd (aid : Nat) (csF : List Component) (e e' : ComponentMatchArray) : Prop :=
  (e.component.isSome = true → e' = e) ∧
  (e.component = none →
    e'.component = none ∨
      ∃ cid, e'.component = some cid ∧
        (e'.duplicate = false → ∃ c ∈ csF, c.cid = cid ∧ c.adev = some aid))

theorem entryUpd_refl (aid : Nat) (csF : List Component) (e : ComponentMatchArray) :
    entryUpd aid csF e e :=
  ⟨fun _ => rfl, fun h => Or.inl h⟩

theorem forall₂_entryUpd_refl (aid : Nat) (csF : List Component)
    (l : List ComponentMatchArray) : List.Forall₂ (entryUpd aid csF) l l :=
  List.forall₂_same.mpr (fun e _ => entryUpd_refl aid csF e)

/-- The specification of the `find_components` loop: the result is 1 iff
every entry of the (updated) match array holds a component; components are
only ever attached to this aggregate, never detached or otherwise changed;
and each entry is updated according to `entryUpd` — in particular earlier
successful associations are kept on failure. -/
theorem find_components_go_spec (aid : Nat) :
    ∀ (entries : List ComponentMatchArray) (cs : List Component),
      ((find_components_go aid cs entries).1 = true ↔
        ∀ e ∈ (find_components_go aid cs entries).2.2, e.component.isSome = true) ∧
      List.Forall₂ (compUpd aid) cs (find_components_go aid cs entries).2.1 ∧
      List.Forall₂ (entryUpd aid (find_components_go aid cs entries).2.1)
        entries (find_components_go aid cs entries).2.2 := by
  intro entries
  induction entries with
  | nil =>
    intro cs
    exact ⟨by simp [find_components_go], forall₂_compUpd_refl aid cs, List.Forall₂.nil⟩
  | cons e rest ih =>
    intro cs
    by_cases hsome : e.component.isSome = true
    · rcases hgo : find_components_go aid cs rest with ⟨ok, cs2, es2⟩
      obtain ⟨hiff, hcomp, hent⟩ := ih cs
      rw [hgo] at hiff hcomp hent
      rw [find_components_go, if_pos hsome, hgo]
      refine ⟨?_, hcomp, ?_⟩
      · simp only
        constructor
        · intro hok e' he'
          rcases List.mem_cons.mp he' with h1 | h2
          · subst h1; exact hsome
          · exact (hiff.mp hok) e' h2
        · intro hall
          exact hiff.mpr (fun e' he' => hall e' (List.mem_cons_of_mem _ he'))
      · exact List.Forall₂.cons (entryUpd_refl aid cs2 e) hent
    · have hnone : e.component = none := Option.not_isSome_iff_eq_none.mp (by simpa using hsome)
      rcases hfc : find_component aid e cs with _ | c
      · rw [find_components_go, if_neg hsome, hfc]
        refine ⟨?_, forall₂_compUpd_refl aid cs, ?_⟩
        · simp only
          constructor
          · intro h; cases h
          · intro hall
            have := hall e (List.mem_cons_self _ _)
            rw [hnone] at this
            cases this
        · exact List.Forall₂.cons (entryUpd_refl aid cs e)
            (forall₂_entryUpd_refl aid cs rest)
      · by_cases hdup : c.adev.isSome = true
        · rcases hgo : find_components_go aid cs rest with ⟨ok, cs2, es2⟩
          obtain ⟨hiff, hcomp, hent⟩ := ih cs
          rw [hgo] at hiff hcomp hent
          rw [find_components_go, if_neg hsome, hfc]
          simp only [hdup, if_true, hgo]
          refine ⟨?_, hcomp, ?_⟩
          · constructor
            · intro hok e' he'
              rcases List.mem_cons.mp he' with h1 | h2
              · subst h1; rfl
              · exact (hiff.mp hok) e' h2
            · intro hall
              exact hiff.mpr (fun e' he' => hall e' (List.mem_cons_of_mem _ he'))
          · refine List.Forall₂.cons ?_ hent
            refine ⟨fun h => absurd h (by simp [hnone]), fun _ => Or.inr ⟨c.cid, rfl, ?_⟩⟩
            intro hfalse
            cases hfalse
        · rcases hgo : find_components_go aid
              (updateC cs c.cid (fun x => { x with adev := some aid })) rest with ⟨ok, cs2, es2⟩
          obtain ⟨hiff, hcomp, hent⟩ :=
            ih (updateC cs c.cid (fun x => { x with adev := some aid }))
          rw [hgo] at hiff hcomp hent
          rw [find_components_go, if_neg hsome, hfc]
          simp only [hdup, if_false, hgo]
          refine ⟨?_, forall₂_compUpd_trans (forall₂_compUpd_updateC aid c.cid cs) hcomp, ?_⟩
          · constructor
            · intro hok e' he'
              rcases List.mem_cons.mp he' with h1 | h2
              · subst h1; rfl
              · exact (hiff.mp hok) e' h2
            · intro hall
              exact hiff.mpr (fun e' he' => hall e' (List.mem_cons_of_mem _ he'))
          · refine List.Forall₂.cons ?_ hent
            refine ⟨fun h => absurd h (by simp [hnone]), fun _ => Or.inr ⟨c.cid, rfl, ?_⟩⟩
            intro _
            have hcmem : c ∈ cs := List.mem_of_find?_eq_some hfc
            have hupd : ({ c with adev := some aid } : Component) ∈
                updateC cs c.cid (fun x => { x with adev := some aid }) := by
              have := List.mem_map_of_mem
                (fun x => if x.cid == c.cid then { x with adev := some aid } else x) hcmem
              simpa [updateC] using this
            obtain ⟨y, hy, hr⟩ := forall₂_exists_mem_left hcomp _ hupd
            refine ⟨y, hy, ?_, compUpd_attached hr rfl⟩
            rw [compUpd_cid hr]

/-- An entry strictly before the failure point of `find_components`: if it
already held a component it is untouched, and if it was empty it now
*holds* one which, unless flagged duplicate, is attached to this aggregate
in the final component list.  Unlike `entryUpd` there is no escape clause:
an implementation that rolled associations back on failure could not
satisfy this relation for an initially empty entry. -/
def entryKept (aid : Nat) (csF : List Component) (e e' : ComponentMatchArray) : Prop :=
  (e.component.isSome = true → e' = e) ∧
  (e.component = none →
    ∃ cid, e'.component = some cid ∧
      (e'.duplicate = false → ∃ c ∈ csF, c.cid = cid ∧ c.adev = some aid))

/-- Failure characterization of the `find_components` loop: when it
returns 0, the original match array splits as `pre₀ ++ efail :: post` and
the resulting one as `pre₁ ++ efail :: post` — the failing entry (still
empty) and the whole suffix after it are returned untouched, while every
entry before the failure point holds a component (`entryKept`): earlier
associations made in the same call are kept, and their non-duplicate
components are attached to this aggregate in the resulting component
list.  Nothing is rolled back. -/
theorem find_components_go_fail (aid : Nat) :
    ∀ (entries : List ComponentMatchArray) (cs : List Component),
      (find_components_go aid cs entries).1 = false →
      ∃ pre₀ pre₁ efail post,
        entries = pre₀ ++ efail :: post ∧
        (find_components_go aid cs entries).2.2 = pre₁ ++ efail :: post ∧
        efail.component = none ∧
        List.Forall₂ (entryKept aid (find_components_go aid cs entries).2.1) pre₀ pre₁ := by
  intro entries
  induction entries with
  | nil =>
    intro cs h
    rw [find_components_go] at h
    cases h
  | cons e rest ih =>
    intro cs h
    by_cases hsome : e.component.isSome = true
    · rcases hgo : find_components_go aid cs rest with ⟨ok, cs2, es2⟩
      have hres : find_components_go aid cs (e :: rest) = (ok, cs2, e :: es2) := by
        rw [find_components_go, if_pos hsome, hgo]
      rw [hres] at h
      have hfail : (find_components_go aid cs rest).1 = false := by
        rw [hgo]; exact h
      obtain ⟨pre₀, pre₁, efail, post, h1, h2, h3, h4⟩ := ih cs hfail
      rw [hgo] at h2 h4
      refine ⟨e :: pre₀, e :: pre₁, efail, post, ?_, ?_, h3, ?_⟩
      · rw [h1]; rfl
      · rw [hres]
        show e :: es2 = (e :: pre₁) ++ efail :: post
        rw [show es2 = pre₁ ++ efail :: post from h2]
        rfl
      · rw [hres]
        exact List.Forall₂.cons
          ⟨fun _ => rfl, fun hn => absurd hsome (by simp [hn])⟩ h4
    · have hnone : e.component = none :=
        Option.not_isSome_iff_eq_none.mp (by simpa using hsome)
      rcases hfc : find_component aid e cs with _ | c
      · have hres : find_components_go aid cs (e :: rest) = (false, cs, e :: rest) := by
          rw [find_components_go, if_neg hsome, hfc]
        rw [hres]
        exact ⟨[], [], e, rest, rfl, rfl, hnone, List.Forall₂.nil⟩
      · by_cases hdup : c.adev.isSome = true
        · rcases hgo : find_components_go aid cs rest with ⟨ok, cs2, es2⟩
          have hres : find_components_go aid cs (e :: rest) =
              (ok, cs2, { e with duplicate := true, component := some c.cid } :: es2) := by
            rw [find_components_go, if_neg hsome, hfc]
            simp only [hdup, if_true, hgo]
          rw [hres] at h
          have hfail : (find_components_go aid cs rest).1 = false := by
            rw [hgo]; exact h
          obtain ⟨pre₀, pre₁, efail, post, h1, h2, h3, h4⟩ := ih cs hfail
          rw [hgo] at h2 h4
          refine ⟨e :: pre₀,
            { e with duplicate := true, component := some c.cid } :: pre₁, efail, post,
            ?_, ?_, h3, ?_⟩
          · rw [h1]; rfl
          · rw [hres]
            show _ :: es2 = _ :: (pre₁ ++ efail :: post)
            rw [show es2 = pre₁ ++ efail :: post from h2]
          · rw [hres]
            refine List.Forall₂.cons
              ⟨fun hs => absurd hs (by simp [hnone]),
               fun _ => ⟨c.cid, rfl, fun hfalse => by simp at hfalse⟩⟩ h4
        · rcases hgo : find_components_go aid
              (updateC cs c.cid (fun x => { x with adev := some aid })) rest
            with ⟨ok, cs2, es2⟩
          have hres : find_components_go aid cs (e :: rest) =
              (ok, cs2, { e with duplicate := false, component := some c.cid } :: es2) := by
            rw [find_components_go, if_neg hsome, hfc]
            simp only [hdup, Bool.false_eq_true, if_false, hgo]
          rw [hres] at h
          have hfail : (find_components_go aid
              (updateC cs c.cid (fun x => { x with adev := some aid })) rest).1 = false := by
            rw [hgo]; exact h
          obtain ⟨pre₀, pre₁, efail, post, h1, h2, h3, h4⟩ :=
            ih (updateC cs c.cid (fun x => { x with adev := some aid })) hfail
          rw [hgo] at h2 h4
          obtain ⟨-, hcompF, -⟩ := find_components_go_spec aid rest
            (updateC cs c.cid (fun x => { x with adev := some aid }))
          rw [hgo] at hcompF
          refine ⟨e :: pre₀,
            { e with duplicate := false, component := some c.cid } :: pre₁, efail, post,
            ?_, ?_, h3, ?_⟩
          · rw [h1]; rfl
          · rw [hres]
            show _ :: es2 = _ :: (pre₁ ++ efail :: post)
            rw [show es2 = pre₁ ++ efail :: post from h2]
          · rw [hres]
            refine List.Forall₂.cons
              ⟨fun hs => absurd hs (by simp [hnone]), fun _ => ⟨c.cid, rfl, fun _ => ?_⟩⟩ h4
            have hcmem : c ∈ cs := List.mem_of_find?_eq_some hfc
            have hupd : ({ c with adev := some aid } : Component) ∈
                updateC cs c.cid (fun x => { x with adev := some aid }) := by
              have := List.mem_map_of_mem
                (fun x => if x.cid == c.cid then { x with adev := some aid } else x) hcmem
              simpa [updateC] using this
            obtain ⟨y, hy, hr⟩ := forall₂_exists_mem_left hcompF _ hupd
            refine ⟨y, hy, ?_, compUpd_attached hr rfl⟩
            rw [compUpd_cid hr]

/-- **C2.** With the aggregate's own driver, `aggregate_device_match`
returns nonzero (which is what triggers the aggregate driver's probe) if
and only if `find_components` has associated a registered component with
every entry of the aggregate's match array; if it returns 0, some match
entry found no component and, by the `find_components_go_fail`
decomposition, the match array splits at that first failing entry: the
failing entry and the suffix are untouched, while every entry before it
still holds its component (`entryKept` — newly found non-duplicates are
attached to this aggregate in the resulting component list): components
matched to earlier entries stay attached, and assembly does not start. -/
theorem C2_aggregate_device_match_assembly (cs : List Component)
    (adev : AggregateDevice) (drv : Nat) (hdrv : drv = adev.adrv) :
    ((aggregate_device_match cs adev drv).1 ≠ 0 ↔
      ∀ e ∈ (aggregate_device_match cs adev drv).2.2.entries, e.component.isSome = true) ∧
    ((aggregate_device_match cs adev drv).1 = 0 →
      ∃ e ∈ (aggregate_device_match cs adev drv).2.2.entries, e.component = none) ∧
    ((aggregate_device_match cs adev drv).1 = 0 →
      ∃ pre₀ pre₁ efail post,
        adev.entries = pre₀ ++ efail :: post ∧
        (aggregate_device_match cs adev drv).2.2.entries = pre₁ ++ efail :: post ∧
        efail.component = none ∧
        List.Forall₂ (entryKept adev.aid (aggregate_device_match cs adev drv).2.1)
          pre₀ pre₁) ∧
    List.Forall₂ (compUpd adev.aid) cs (aggregate_device_match cs adev drv).2.1 ∧
    List.Forall₂ (entryUpd adev.aid (aggregate_device_match cs adev drv).2.1)
      adev.entries (aggregate_device_match cs adev drv).2.2.entries := by
  subst hdrv
  rcases hgo : find_components_go adev.aid cs adev.entries with ⟨ok, cs2, es2⟩
  obtain ⟨hiff, hcomp, hent⟩ := find_components_go_spec adev.aid adev.entries cs
  rw [hgo] at hiff hcomp hent
  have hmatch : aggregate_device_match cs adev adev.adrv =
      ((if ok then 1 else 0 : Int), cs2, { adev with entries := es2 }) := by
    rw [aggregate_device_match, if_neg (by simp), find_components, hgo]
  rw [hmatch]
  refine ⟨?_, ?_, ?_, hcomp, hent⟩
  · cases ok
    · simp only [if_false]
      constructor
      · intro h; exact absurd rfl h
      · intro hall
        have : (false : Bool) = true := hiff.mpr hall
        cases this
    · simp only [if_true]
      constructor
      · intro _; exact hiff.mp rfl
      · intro _; norm_num
  · cases ok
    · intro _
      have hnall : ¬ ∀ e ∈ es2, e.component.isSome = true := by
        intro hall
        have : (false : Bool) = true := hiff.mpr hall
        cases this
      push_neg at hnall
      obtain ⟨e, he, hne⟩ := hnall
      exact ⟨e, he, Option.not_isSome_iff_eq_none.mp (by simpa using hne)⟩
    · intro h
      norm_num at h
  · cases ok
    · intro _
      obtain ⟨pre₀, pre₁, efail, post, h1, h2, h3, h4⟩ :=
        find_components_go_fail adev.aid adev.entries cs (by rw [hgo])
      rw [hgo] at h2 h4
      exact ⟨pre₀, pre₁, efail, post, h1, h2, h3, h4⟩
    · intro h
      norm_num at h

/-- C2 witness component and aggregate: one always-true match entry and one
unattached component. -/
def c2comp : Component :=
  { cid := 0, dev := 4, ops := ⟨0, 0, false⟩, subcomponent := 0, bound := false,
    adev := none }

/-- C2 witness entry. -/
def c2entry : ComponentMatchArray :=
  { compare := some (fun _ => true), compare_typed := none, component := none,
    duplicate := false }

/-- C2 witness aggregate device. -/
def c2adev : AggregateDevice :=
  { aid := 0, parent := 1, ops := none, adrv := 3, entries := [c2entry],
    driverBound := false }

/-- Witness for C2 at its own driver (id 3). -/
theorem C2_aggregate_device_match_assembly_witness :
    (3 : Nat) = c2adev.adrv ∧
    (((aggregate_device_match [c2comp] c2adev 3).1 ≠ 0 ↔
       ∀ e ∈ (aggregate_device_match [c2comp] c2adev 3).2.2.entries,
         e.component.isSome = true) ∧
     ((aggregate_device_match [c2comp] c2adev 3).1 = 0 →
       ∃ e ∈ (aggregate_device_match [c2comp] c2adev 3).2.2.entries, e.component = none) ∧
     ((aggregate_device_match [c2comp] c2adev 3).1 = 0 →
       ∃ pre₀ pre₁ efail post,
         c2adev.entries = pre₀ ++ efail :: post ∧
         (aggregate_device_match [c2comp] c2adev 3).2.2.entries = pre₁ ++ efail :: post ∧
         efail.component = none ∧
         List.Forall₂ (entryKept c2adev.aid (aggregate_device_match [c2comp] c2adev 3).2.1)
           pre₀ pre₁) ∧
     List.Forall₂ (compUpd c2adev.aid) [c2comp] (aggregate_device_match [c2comp] c2adev 3).2.1 ∧
     List.Forall₂ (entryUpd c2adev.aid (aggregate_device_match [c2comp] c2adev 3).2.1)
       c2adev.entries (aggregate_device_match [c2comp] c2adev 3).2.2.entries) :=
  ⟨rfl, C2_aggregate_device_match_assembly [c2comp] c2adev 3 rfl⟩

theorem component_bind_upd_preserves (c : Component) :
    ((component_bind c).2).cid = c.cid ∧ ((component_bind c).2).ops = c.ops := by
  simp only [component_bind]
  split <;> exact ⟨rfl, rfl⟩

theorem opsView_eq_imp {cs1 cs : List Component} {x : Nat}
    (h : opsView cs1 x = opsView cs x) {c : Component} (hc : findC cs x = some c) :
    ∃ c', findC cs1 x = some c' ∧ c'.ops = c.ops := by
  rw [opsView, opsView, hc] at h
  cases hc1 : findC cs1 x
  · rw [hc1] at h
    cases h
  · rw [hc1] at h
    simp only [Option.map_some'] at h
    exact ⟨_, rfl, Option.some.inj h⟩

/-- Every non-duplicate entry resolves in `cs` to a component whose bind
callback succeeds. -/
def EntriesBindOk (cs : List Component) (entries : List ComponentMatchArray) : Prop :=
  ∀ e ∈ entries, e.duplicate = false →
    ∃ cid, e.component = some cid ∧
      ∃ c, findC cs cid = some c ∧ c.ops.bindResult = 0

/-- The forward bind loop over a prefix of all-successful entries: it binds
the non-duplicate entries' components in match order (`bindCb` trace),
returns `ret = 0` with the loop counter equal to the prefix length,
preserves identities and `ops`, and only components of that prefix (or
previously bound ones) end up bound. -/
theorem component_bind_forward_ok (pre : List ComponentMatchArray) :
    ∀ cs, EntriesBindOk cs pre →
      ∃ cs1, component_bind_forward cs pre =
          some (0, pre.length, cs1, (ndCids pre).map CompEv.bindCb) ∧
        (∀ x, opsView cs1 x = opsView cs x) ∧
        (∀ x, (findC cs1 x).isSome = (findC cs x).isSome) ∧
        (∀ c1 ∈ cs1, c1.bound = true →
          c1.cid ∈ ndCids pre ∨ ∃ c0 ∈ cs, c0.cid = c1.cid ∧ c0.bound = true) ∧
        (∀ c1 ∈ cs1, ∃ c0 ∈ cs, c1.cid = c0.cid ∧ c1.ops = c0.ops) := by
  induction pre with
  | nil =>
    intro cs _
    exact ⟨cs, rfl, fun _ => rfl, fun _ => rfl,
      fun c1 h1 hb => Or.inr ⟨c1, h1, rfl, hb⟩,
      fun c1 h1 => ⟨c1, h1, rfl, rfl⟩⟩
  | cons e rest ih =>
    intro cs hok
    by_cases hdup : e.duplicate = true
    · obtain ⟨cs1, hfwd, hops, hdom, hbound, htrans⟩ :=
        ih cs (fun e' he' => hok e' (List.mem_cons_of_mem _ he'))
      have hnd : ndCids (e :: rest) = ndCids rest := by simp [ndCids, hdup]
      refine ⟨cs1, ?_, hops, hdom, ?_, htrans⟩
      · rw [component_bind_forward, if_pos hdup, hfwd, hnd]
        rfl
      · intro c1 h1 hb
        rw [hnd]
        exact hbound c1 h1 hb
    · have hdupf : e.duplicate = false := by simpa using hdup
      obtain ⟨cid, hcomp, c, hc, hbr⟩ := hok e (List.mem_cons_self _ _) hdupf
      have hnd : ndCids (e :: rest) = cid :: ndCids rest := by
        simp [ndCids, hdupf, hcomp]
      have hcond : ((component_bind c).1 == 0) = true := by
        simp [component_bind, hbr]
      have hokrest : EntriesBindOk
          (updateC cs cid (fun x => (component_bind x).2)) rest := by
        intro e' he' hd'
        obtain ⟨cid', hcomp', c', hc', hbr'⟩ :=
          hok e' (List.mem_cons_of_mem _ he') hd'
        obtain ⟨c'', hc'', hops''⟩ := opsView_eq_imp
          (opsView_updateC cs cid cid' _ component_bind_upd_preserves) hc'
        exact ⟨cid', hcomp', c'', hc'', by rw [hops'', hbr']⟩
      obtain ⟨cs2, hfwd, hops, hdom, hbound, htrans⟩ :=
        ih (updateC cs cid (fun x => (component_bind x).2)) hokrest
      refine ⟨cs2, ?_, ?_, ?_, ?_, ?_⟩
      · rw [component_bind_forward, if_neg hdup, hcomp]
        simp only [hc, hcond, if_true, hfwd, Option.map_some', hnd, List.map_cons,
          List.length_cons]
      · intro x
        rw [hops x, opsView_updateC cs cid x _ component_bind_upd_preserves]
      · intro x
        rw [hdom x, isSome_findC_updateC cs cid x _ component_bind_upd_preserves]
      · intro c1 h1 hb
        rw [hnd]
        rcases hbound c1 h1 hb with hmem | ⟨c0, h0, hcid0, hb0⟩
        · exact Or.inl (List.mem_cons_of_mem _ hmem)
        · obtain ⟨c00, h00, heq⟩ := List.mem_map.mp h0
          by_cases hcc : c00.cid = cid
          · rw [if_pos (by simpa using hcc)] at heq
            left
            have : c0.cid = c00.cid := by rw [← heq]; exact (component_bind_upd_preserves c00).1
            rw [← hcid0, this, hcc]
            exact List.mem_cons_self _ _
          · rw [if_neg (by simpa using hcc)] at heq
            subst heq
            right
            exact ⟨c00, h00, hcid0, hb0⟩
      · intro c1 h1
        obtain ⟨c0, h0, hcid0, hops0⟩ := htrans c1 h1
        obtain ⟨c00, h00, heq⟩ := List.mem_map.mp h0
        refine ⟨c00, h00, ?_, ?_⟩
        · rw [hcid0, ← heq]
          by_cases hcc : c00.cid = cid
          · rw [if_pos (by simpa using hcc)]
            exact (component_bind_upd_preserves c00).1
          · rw [if_neg (by simpa using hcc)]
        · rw [hops0, ← heq]
          by_cases hcc : c00.cid = cid
          · rw [if_pos (by simpa using hcc)]
            exact (component_bind_upd_preserves c00).2
          · rw [if_neg (by simpa using hcc)]

/-- Splitting the forward bind loop: a fully successful prefix composes
with the loop on the remaining entries (loop counter offset by the prefix
length, traces concatenated). -/
theorem component_bind_forward_append (pre : List ComponentMatchArray) :
    ∀ cs cs1 tr1 rest,
      component_bind_forward cs pre = some (0, pre.length, cs1, tr1) →
      component_bind_forward cs (pre ++ rest) =
        (component_bind_forward cs1 rest).map
          (fun r => (r.1, pre.length + r.2.1, r.2.2.1, tr1 ++ r.2.2.2)) := by
  induction pre with
  | nil =>
    intro cs cs1 tr1 rest h
    rw [component_bind_forward] at h
    simp only [Option.some.injEq, Prod.mk.injEq] at h
    obtain ⟨-, -, hcs, htr⟩ := h
    subst hcs
    subst htr
    rw [List.nil_append]
    cases hf : component_bind_forward cs rest
    · rfl
    · simp
  | cons e pre' ih =>
    intro cs cs1 tr1 rest h
    rw [component_bind_forward] at h
    rw [List.cons_append, component_bind_forward]
    by_cases hdup : e.duplicate = true
    · rw [if_pos hdup] at h ⊢
      rcases hf : component_bind_forward cs pre' with _ | ⟨r1, i, csx, trx⟩
      · rw [hf] at h; cases h
      · rw [hf] at h
        simp only [Option.map_some', Option.some.injEq, Prod.mk.injEq,
          List.length_cons] at h
        obtain ⟨hr1, hi, hcs, htr⟩ := h
        subst hr1
        subst hcs
        subst htr
        have hi' : i = pre'.length := by omega
        subst hi'
        rw [ih cs csx trx rest hf, Option.map_map]
        refine congrArg (fun f => Option.map f (component_bind_forward csx rest)) ?_
        funext r
        simp only [Function.comp_apply, List.length_cons]
        exact congrArg₂ Prod.mk rfl (congrArg₂ Prod.mk (by omega) rfl)
    · rw [if_neg hdup] at h ⊢
      cases hcomp : e.component with
      | none =>
        rw [hcomp] at h
        simp only [] at h
        exact Option.noConfusion h
      | some cid =>
        rw [hcomp] at h
        simp only [] at h ⊢
        cases hfc : findC cs cid with
        | none =>
          rw [hfc] at h
          simp only [] at h
          exact Option.noConfusion h
        | some c =>
          rw [hfc] at h
          simp only [] at h ⊢
          by_cases hcnd : ((component_bind c).1 == 0) = true
          · rw [if_pos hcnd] at h ⊢
            rcases hf : component_bind_forward
                (updateC cs cid (fun x => (component_bind x).2)) pre' with _ | ⟨r1, i, csx, trx⟩
            · rw [hf] at h; cases h
            · rw [hf] at h
              simp only [Option.map_some', Option.some.injEq, Prod.mk.injEq,
                List.length_cons] at h
              obtain ⟨hr1, hi, hcs, htr⟩ := h
              subst hr1
              subst hcs
              have hi' : i = pre'.length := by omega
              subst hi'
              subst htr
              rw [ih _ csx trx rest hf, Option.map_map]
              refine congrArg (fun f => Option.map f (component_bind_forward csx rest)) ?_
              funext r
              simp only [Function.comp_apply, List.length_cons]
              exact congrArg₂ Prod.mk rfl
                (congrArg₂ Prod.mk (by omega) (congrArg₂ Prod.mk rfl (by simp)))
          · rw [if_neg hcnd] at h
            simp only [Option.some.injEq, Prod.mk.injEq] at h
            obtain ⟨h1, -, -, -⟩ := h
            rw [h1] at hcnd
            simp at hcnd

/-- **C1.** If `component_bind_all` fails while binding the component of
the first non-successful non-duplicate entry (its `ops->bind` returns
`err ≠ 0` — the entries before it, `pre`, all bind successfully), then the
event trace is: one `ops->bind` per non-duplicate entry of `pre` in match
order, the failing `ops->bind`, and then one `component_unbind` per
non-duplicate entry of `pre` in reverse match order; `component_bind_all`
returns `err`; and if every component started out unbound, every component
is unbound afterwards (in particular the failing one).  `hkuniq` states
that `kcid` is the pointer identity of the failing component (pointer
identities are unique in C). -/
theorem C1_component_bind_all_rollback (st : KState) (parent : Nat)
    (adev : AggregateDevice) (pre : List ComponentMatchArray)
    (ek : ComponentMatchArray) (post : List ComponentMatchArray)
    (kcid : Nat) (kc : Component) (err : Int)
    (hfind : aggregate_find st.aggregates parent none = some adev)
    (hentries : adev.entries = pre ++ ek :: post)
    (hpre : EntriesBindOk st.components pre)
    (hkdup : ek.duplicate = false)
    (hkcomp : ek.component = some kcid)
    (hkc : findC st.components kcid = some kc)
    (hkerr : kc.ops.bindResult = err)
    (herr : err ≠ 0)
    (hkuniq : ∀ c' ∈ st.components, c'.cid = kcid → c'.ops.bindResult = err)
    (hb0 : ∀ c ∈ st.components, c.bound = false) :
    ∃ cs2, component_bind_all st parent =
        some (err, { st with components := cs2 },
          ((ndCids pre).map CompEv.bindCb ++ [CompEv.bindCb kcid]) ++
            (ndCids pre).reverse.map CompEv.unbindComp) ∧
      ∀ c ∈ cs2, c.bound = false := by
  obtain ⟨csB, hfwd, hops, hdom, hbound, htrans⟩ :=
    component_bind_forward_ok pre st.components hpre
  obtain ⟨kc', hkc', hkops'⟩ := opsView_eq_imp (hops kcid) hkc
  have hkerr' : kc'.ops.bindResult = err := by rw [hkops', hkerr]
  have huniqB : ∀ c' ∈ csB, c'.cid = kcid → c'.ops.bindResult = err := by
    intro c' hc' hcc
    obtain ⟨c0, h0, hcid0, hops0⟩ := htrans c' hc'
    rw [hops0]
    exact hkuniq c0 h0 (by rw [← hcid0, hcc])
  have hupd_id : updateC csB kcid (fun x => (component_bind x).2) = csB := by
    rw [updateC]
    conv_rhs => rw [← List.map_id csB]
    apply List.map_congr_left
    intro c' hc'
    by_cases hcc : c'.cid = kcid
    · rw [if_pos (by simpa using hcc)]
      have hbr := huniqB c' hc' hcc
      simp only [component_bind, hbr]
      rw [if_neg (by simpa using herr)]
      rfl
    · rw [if_neg (by simpa using hcc)]
      rfl
  have hpreL : component_bind_forward st.components (pre ++ ek :: post) =
      some (err, pre.length, csB,
        (ndCids pre).map CompEv.bindCb ++ [CompEv.bindCb kcid]) := by
    rw [component_bind_forward_append pre st.components csB
      ((ndCids pre).map CompEv.bindCb) (ek :: post) hfwd]
    rw [component_bind_forward, if_neg (show ¬ ek.duplicate = true from by simp [hkdup]),
      hkcomp]
    simp only []
    rw [hkc']
    simp only []
    rw [if_neg (show ¬ ((component_bind kc').1 == 0) = true from by
      have h1 : (component_bind kc').1 = err := by
        rw [show (component_bind kc').1 = kc'.ops.bindResult from rfl, hkerr']
      rw [h1]
      simp [herr])]
    rw [hupd_id, show (component_bind kc').1 = err from by
      rw [show (component_bind kc').1 = kc'.ops.bindResult from rfl, hkerr']]
    simp
  have hresB : EntriesResolvable csB pre := by
    intro e he hd
    obtain ⟨cid, hcomp, c, hc, _⟩ := hpre e he hd
    refine ⟨cid, hcomp, ?_⟩
    rw [hdom, hc]
    rfl
  obtain ⟨cs2, hloop, hdom2, hops2, hbound2⟩ := component_unbind_loop_spec pre csB hresB
  refine ⟨cs2, ?_, ?_⟩
  · rw [component_bind_all, hfind]
    simp only []
    rw [hentries, hpreL]
    simp only [bind, Option.bind]
    rw [if_neg (show ¬ ((err == 0) = true) from by simp [herr])]
    rw [show List.take pre.length (pre ++ ek :: post) = pre from
      List.take_left pre (ek :: post)]
    rw [hloop]
    rfl
  · intro c hc
    by_contra hb
    simp only [Bool.not_eq_false] at hb
    obtain ⟨hnot, c0, h0, hcid0, hb0'⟩ := hbound2 c hc hb
    rcases hbound c0 h0 hb0' with hmem | ⟨c00, h00, hcid00, hb00⟩
    · exact hnot (hcid0 ▸ hmem)
    · rw [hb0 c00 h00] at hb00
      cases hb00

/-- C1 witness: component that binds successfully. -/
def c1compA : Component :=
  { cid := 0, dev := 0, ops := ⟨0, 0, true⟩, subcomponent := 0, bound := false,
    adev := some 0 }

/-- C1 witness: component whose bind callback fails with -5. -/
def c1compB : Component :=
  { cid := 1, dev := 1, ops := ⟨1, -5, true⟩, subcomponent := 0, bound := false,
    adev := some 0 }

/-- C1 witness: first (successful) match entry. -/
def c1e0 : ComponentMatchArray :=
  { compare := some (fun _ => true), compare_typed := none, component := some 0,
    duplicate := false }

/-- C1 witness: second (failing) match entry. -/
def c1e1 : ComponentMatchArray :=
  { compare := some (fun _ => true), compare_typed := none, component := some 1,
    duplicate := false }

/-- C1 witness aggregate device (parent 9). -/
def c1adev : AggregateDevice :=
  { aid := 0, parent := 9, ops := none, adrv := 0, entries := [c1e0, c1e1],
    driverBound := true }

/-- C1 witness state. -/
def c1state : KState := { components := [c1compA, c1compB], aggregates := [c1adev] }

/-- Witness for C1: binding entry 0 succeeds, binding entry 1 fails with
-5; the bind is rolled back. -/
theorem C1_component_bind_all_rollback_witness :
    aggregate_find c1state.aggregates 9 none = some c1adev ∧
    c1adev.entries = [c1e0] ++ c1e1 :: [] ∧
    EntriesBindOk c1state.components [c1e0] ∧
    c1e1.duplicate = false ∧
    c1e1.component = some 1 ∧
    findC c1state.components 1 = some c1compB ∧
    c1compB.ops.bindResult = -5 ∧
    (-5 : Int) ≠ 0 ∧
    (∀ c' ∈ c1state.components, c'.cid = 1 → c'.ops.bindResult = -5) ∧
    (∀ c ∈ c1state.components, c.bound = false) ∧
    (∃ cs2, component_bind_all c1state 9 =
        some (-5, { c1state with components := cs2 },
          ((ndCids [c1e0]).map CompEv.bindCb ++ [CompEv.bindCb 1]) ++
            (ndCids [c1e0]).reverse.map CompEv.unbindComp) ∧
      ∀ c ∈ cs2, c.bound = false) :=
  ⟨rfl, rfl,
    fun e he _ => by
      have he' : e = c1e0 := by simpa using he
      subst he'
      exact ⟨0, rfl, c1compA, rfl, rfl⟩,
    rfl, rfl, rfl, rfl, by decide, by decide, by decide,
    C1_component_bind_all_rollback c1state 9 c1adev [c1e0] c1e1 [] 1 c1compB (-5)
      rfl rfl
      (fun e he _ => by
        have he' : e = c1e0 := by simpa using he
        subst he'
        exact ⟨0, rfl, c1compA, rfl, rfl⟩)
      rfl rfl rfl rfl (by decide) (by decide) (by decide)⟩
